import Mathlib

/-!
# LC-3 virtual machine (`src/little_computer_3.c`): shallow embedding

The C program keeps its machine state in two global arrays,
`uint16_t memory[65536]` and `uint16_t registers[10]`.  Here both are functions
from an index to a value, passed explicitly.  Every `uint16_t` is a natural
number; each assignment to a `uint16_t` object truncates with `% 65536`, and
the arithmetic in between is C `int` arithmetic (the operands are promoted),
which is why intermediate values live in `Nat` or `Int` without wrap-around.

An access `memory[i]` with `i` outside `0 .. 65535` is undefined behaviour in
C; `execute` returns `none` there.  Register indices are always decoded from
3-bit fields, so `registers[...]` is never indexed outside `0 .. 7` by a
decoded operand (see `get_bits_between_three_lt`).
-/

namespace LC3

/-! ## Constants (lines 4-62) -/

def WORD_SIZE : Nat := 16
def N_REGISTERS : Nat := 10
def MAX_ADDRESSABLE : Nat := 1 <<< WORD_SIZE
def END_OF_USER_SPACE : Nat := 0xFDFF
def USER_SPACE_START : Nat := 0x3000

def R_0 : Nat := 0
def R_1 : Nat := 1
def R_2 : Nat := 2
def R_3 : Nat := 3
def R_4 : Nat := 4
def R_5 : Nat := 5
def R_6 : Nat := 6
def R_7 : Nat := 7
def R_PC : Nat := 8
def R_PSR : Nat := 9

def INSTR_BR : Nat := 0
def INSTR_ADD : Nat := 1
def INSTR_LD : Nat := 2
def INSTR_ST : Nat := 3
def INSTR_JSR : Nat := 4
def INSTR_AND : Nat := 5
def INSTR_LDR : Nat := 6
def INSTR_STR : Nat := 7
def INSTR_RTI : Nat := 8
def INSTR_NOT : Nat := 9
def INSTR_LDI : Nat := 10
def INSTR_STI : Nat := 11
def INSTR_JMP : Nat := 12
def INSTR_ILL : Nat := 13
def INSTR_LEA : Nat := 14
def INSTR_TRAP : Nat := 15

def TRAP_GETC : Nat := 0x20
def TRAP_OUT : Nat := 0x21
def TRAP_PUTS : Nat := 0x22
def TRAP_IN : Nat := 0x23
def TRAP_PUTSP : Nat := 0x24
def TRAP_HALT : Nat := 0x25

def COND_NEG : Nat := 4
def COND_ZERO : Nat := 2
def COND_POS : Nat := 1

/-! ## Machine integers -/

/-- Conversion of a C `int` value to `uint16_t`: reduction modulo 2^16. -/
def to_u16 (x : Int) : Nat := (x % 65536).toNat

/-- Array store `a[i] = v` on an array modelled as a function. -/
def store (a : Nat → Nat) (i v : Nat) : Nat → Nat :=
  fun j => if j = i then v else a j

/-! ## Bit-field utilities (lines 64-95) -/

/-- Source `sign_extend` (lines 64-68): `mask = 1 << (n - 1)` stored in a
`uint16_t`, then `(value ^ mask) - mask` computed in `int` and truncated on
return. -/
def sign_extend (value : Nat) (n : Nat) : Nat :=
  let mask : Nat := (1 <<< (n - 1)) % 65536
  to_u16 (((value ^^^ mask : Nat) : Int) - (mask : Int))

/-- Source `switch_endianness` (lines 87-90): the two shifts happen in `int`,
the result is truncated on return. -/
def switch_endianness (instruction : Nat) : Nat :=
  ((instruction <<< (WORD_SIZE / 2)) ||| (instruction >>> (WORD_SIZE / 2))) % 65536

/-- Source `get_bits_between` (lines 92-95). -/
def get_bits_between (instruction : Nat) (n k : Nat) : Nat :=
  ((instruction &&& ((1 <<< (n + 1)) - 1)) >>> k) % 65536

/-! ## Machine state -/

/-- The two global arrays of the program. -/
structure Machine where
  registers : Nat → Nat
  memory : Nat → Nat

/-- Every cell holds a `uint16_t` value. -/
def Machine.wf (s : Machine) : Prop :=
  (∀ i, s.registers i < 65536) ∧ (∀ a, s.memory a < 65536)

/-- Source `update_condition_code` (lines 70-84), on the register array.  The
test `dr < 0` compares the promoted `int` value of the `uint16_t` argument. -/
def update_condition_code (registers : Nat → Nat) (dr : Nat) : Nat → Nat :=
  if (dr : Int) < 0 then
    store registers R_PSR (((registers R_PSR &&& 0x8000) + COND_NEG) % 65536)
  else if dr = 0 then
    store registers R_PSR (((registers R_PSR &&& 0x8000) + COND_ZERO) % 65536)
  else
    store registers R_PSR (((registers R_PSR &&& 0x8000) + COND_POS) % 65536)

/-- Read of `memory[i]`; defined only inside the array. -/
def mem_read (memory : Nat → Nat) (i : Nat) : Option Nat :=
  if i < MAX_ADDRESSABLE then some (memory i) else none

/-- Write `memory[i] = v`; defined only inside the array. -/
def mem_write (memory : Nat → Nat) (i v : Nat) : Option (Nat → Nat) :=
  if i < MAX_ADDRESSABLE then some (store memory i v) else none

/-- What one call of `execute` leaves behind: the two global arrays, the
caller's `arguments` array, the lines printed, and the returned `int`. -/
structure Outcome where
  machine : Machine
  arguments : Nat → Nat
  output : List String
  ret : Nat

/-- First `switch` of `execute` (lines 103-167): operand decoding into the
`arguments` array.  `registers` is the register array after `++registers[R_PC]`.
The `INSTR_BR` case has no `break` and continues into the next case body. -/
def decode_operands (instruction opcode : Nat) (registers arguments : Nat → Nat) :
    Nat → Nat :=
  if opcode = INSTR_ADD ∨ opcode = INSTR_AND ∨ opcode = INSTR_NOT then
    let a := store arguments 0 (get_bits_between instruction 11 9)
    let a := store a 1 (get_bits_between instruction 8 6)
    if get_bits_between instruction 5 5 ≠ 0 then
      store a 2 (sign_extend (get_bits_between instruction 4 0) 5)
    else
      store a 2 (get_bits_between instruction 2 0)
  else if opcode = INSTR_BR then
    let a := store arguments 2 (get_bits_between (registers R_PSR) 2 0)
    let a := store a 0 (get_bits_between instruction 11 9)
    store a 1 (get_bits_between instruction 8 0)
  else if opcode = INSTR_LD ∨ opcode = INSTR_LDI ∨ opcode = INSTR_LEA
      ∨ opcode = INSTR_ST ∨ opcode = INSTR_STI then
    let a := store arguments 0 (get_bits_between instruction 11 9)
    store a 1 (get_bits_between instruction 8 0)
  else if opcode = INSTR_LDR ∨ opcode = INSTR_STR then
    let a := store arguments 0 (get_bits_between instruction 11 9)
    let a := store a 1 (get_bits_between instruction 8 6)
    store a 2 (get_bits_between instruction 5 0)
  else if opcode = INSTR_JSR then
    if get_bits_between instruction 11 11 ≠ 0 then
      store arguments 0 (get_bits_between instruction 10 0)
    else
      store arguments 0 (get_bits_between instruction 8 6)
  else if opcode = INSTR_JMP then
    store arguments 0 (get_bits_between instruction 8 6)
  else if opcode = INSTR_TRAP then
    store arguments 0 (get_bits_between instruction 7 0)
  else
    arguments

/-- Index expression `registers[R_PC] + sign_extend(arguments[1], 9)` of the
`INSTR_LD`, `INSTR_ST`, `INSTR_LDI` and `INSTR_STI` cases: an `int` sum of two
promoted `uint16_t` values, used as the subscript without truncation. -/
def pc_offset_index (registers arguments : Nat → Nat) : Nat :=
  registers R_PC + sign_extend (arguments 1) 9

/-- Index expression `registers[arguments[1]] + sign_extend(arguments[2], 6)`
of the `INSTR_LDR` and `INSTR_STR` cases, likewise an untruncated `int`. -/
def base_offset_index (registers arguments : Nat → Nat) : Nat :=
  registers (arguments 1) + sign_extend (arguments 2) 6

/-- Register write followed by `update_condition_code(registers[arguments[0]])`,
the common tail of the cases that define a destination register. -/
def write_dst (registers arguments : Nat → Nat) (v : Nat) : Nat → Nat :=
  let registers := store registers (arguments 0) (v % 65536)
  update_condition_code registers (registers (arguments 0))

/-- The `break` out of the second `switch` followed by `return 1` (line 307):
nothing is printed and the caller keeps running. -/
def running (registers memory arguments : Nat → Nat) : Option Outcome :=
  some ⟨⟨registers, memory⟩, arguments, [], 1⟩

/-! ### The cases of the second `switch` (lines 169-305)

In each case `s` holds the two global arrays after `++registers[R_PC]` and `a`
the `arguments` array after the first `switch`. -/

/-- Lines 171-178, `case INSTR_BR`. -/
def case_BR (s : Machine) (a : Nat → Nat) : Option Outcome :=
  if (a 0 &&& a 2) ≠ 0 then
    running (store s.registers R_PC ((s.registers R_PC + sign_extend (a 1) 9) % 65536))
      s.memory a
  else
    running s.registers s.memory a

/-- Lines 179-191, `case INSTR_ADD`. -/
def case_ADD (instruction : Nat) (s : Machine) (a : Nat → Nat) : Option Outcome :=
  if get_bits_between instruction 5 5 ≠ 0 then
    running (write_dst s.registers a (s.registers (a 1) + sign_extend (a 2) 5)) s.memory a
  else
    running (write_dst s.registers a (s.registers (a 1) + s.registers (a 2))) s.memory a

/-- Lines 192-198, `case INSTR_LD`. -/
def case_LD (s : Machine) (a : Nat → Nat) : Option Outcome :=
  (mem_read s.memory (pc_offset_index s.registers a)).bind fun w =>
    running (write_dst s.registers a (switch_endianness w)) s.memory a

/-- Lines 200-204, `case INSTR_ST`. -/
def case_ST (s : Machine) (a : Nat → Nat) : Option Outcome :=
  (mem_write s.memory (pc_offset_index s.registers a)
      (switch_endianness (s.registers (a 0)))).bind fun m =>
    running s.registers m a

/-- Lines 205-218, `case INSTR_JSR`: in both modes `registers[R_7]` is written
first and the new PC is computed from the array after that write. -/
def case_JSR (instruction : Nat) (s : Machine) (a : Nat → Nat) : Option Outcome :=
  if get_bits_between instruction 11 11 ≠ 0 then
    let r1 := store s.registers R_7 (s.registers R_PC)
    running (store r1 R_PC ((r1 R_PC + sign_extend (a 0) 11) % 65536)) s.memory a
  else
    let r1 := store s.registers R_7 (s.registers R_PC)
    running (store r1 R_PC (r1 (a 0))) s.memory a

/-- Lines 219-231, `case INSTR_AND`. -/
def case_AND (instruction : Nat) (s : Machine) (a : Nat → Nat) : Option Outcome :=
  if get_bits_between instruction 5 5 ≠ 0 then
    running (write_dst s.registers a (s.registers (a 1) &&& sign_extend (a 2) 5)) s.memory a
  else
    running (write_dst s.registers a (s.registers (a 1) &&& s.registers (a 2))) s.memory a

/-- Lines 232-237, `case INSTR_LDR`. -/
def case_LDR (s : Machine) (a : Nat → Nat) : Option Outcome :=
  (mem_read s.memory (base_offset_index s.registers a)).bind fun w =>
    running (write_dst s.registers a (switch_endianness w)) s.memory a

/-- Lines 238-242, `case INSTR_STR`. -/
def case_STR (s : Machine) (a : Nat → Nat) : Option Outcome :=
  (mem_write s.memory (base_offset_index s.registers a)
      (switch_endianness (s.registers (a 0)))).bind fun m =>
    running s.registers m a

/-- Lines 248-254, `case INSTR_NOT`: `~` acts on the promoted `int`. -/
def case_NOT (s : Machine) (a : Nat → Nat) : Option Outcome :=
  running (write_dst s.registers a (to_u16 (-(s.registers (a 1) : Int) - 1))) s.memory a

/-- Lines 255-261, `case INSTR_LDI`; `pointer` is a `uint16_t`. -/
def case_LDI (s : Machine) (a : Nat → Nat) : Option Outcome :=
  (mem_read s.memory (pc_offset_index s.registers a)).bind fun w =>
    (mem_read s.memory (switch_endianness w)).bind fun v =>
      running (write_dst s.registers a (switch_endianness v)) s.memory a

/-- Lines 262-267, `case INSTR_STI`; `pointer` is a `uint16_t`. -/
def case_STI (s : Machine) (a : Nat → Nat) : Option Outcome :=
  (mem_read s.memory (pc_offset_index s.registers a)).bind fun w =>
    (mem_write s.memory (switch_endianness w) (switch_endianness (s.registers (a 0)))).bind
      fun m => running s.registers m a

/-- Lines 268-272, `case INSTR_JMP`. -/
def case_JMP (s : Machine) (a : Nat → Nat) : Option Outcome :=
  running (store s.registers R_PC (s.registers (a 0))) s.memory a

/-- Lines 278-283, `case INSTR_LEA`. -/
def case_LEA (s : Machine) (a : Nat → Nat) : Option Outcome :=
  running (write_dst s.registers a (s.registers R_PC + sign_extend (a 1) 9)) s.memory a

/-- Lines 284-304, `case INSTR_TRAP`: the inner `switch` has cases for
`TRAP_PUTS`, `TRAP_GETC` and `TRAP_HALT` only; `TRAP_HALT` returns 0. -/
def case_TRAP (s : Machine) (a : Nat → Nat) : Option Outcome :=
  if a 0 = TRAP_PUTS then
    some ⟨s, a, ["Puts called\n"], 1⟩
  else if a 0 = TRAP_GETC then
    running s.registers s.memory a
  else if a 0 = TRAP_HALT then
    some ⟨s, a, ["Halting processor\n"], 0⟩
  else
    running s.registers s.memory a

/-- Second `switch` of `execute` (lines 169-305) and the final `return 1`.
The bodies of `case INSTR_RTI` and `case INSTR_ILL` are empty (`//to-do`). -/
def perform (instruction opcode : Nat) (s : Machine) (a : Nat → Nat) : Option Outcome :=
  if opcode = INSTR_BR then case_BR s a
  else if opcode = INSTR_ADD then case_ADD instruction s a
  else if opcode = INSTR_LD then case_LD s a
  else if opcode = INSTR_ST then case_ST s a
  else if opcode = INSTR_JSR then case_JSR instruction s a
  else if opcode = INSTR_AND then case_AND instruction s a
  else if opcode = INSTR_LDR then case_LDR s a
  else if opcode = INSTR_STR then case_STR s a
  else if opcode = INSTR_RTI then running s.registers s.memory a
  else if opcode = INSTR_NOT then case_NOT s a
  else if opcode = INSTR_LDI then case_LDI s a
  else if opcode = INSTR_STI then case_STI s a
  else if opcode = INSTR_JMP then case_JMP s a
  else if opcode = INSTR_ILL then running s.registers s.memory a
  else if opcode = INSTR_LEA then case_LEA s a
  else if opcode = INSTR_TRAP then case_TRAP s a
  else running s.registers s.memory a

/-- Source `execute` (lines 97-308): opcode extraction, `++registers[R_PC]`,
operand decoding, then the per-opcode effect. -/
def execute (instruction : Nat) (arguments : Nat → Nat) (s : Machine) : Option Outcome :=
  let opcode := get_bits_between instruction 15 12
  let registers := store s.registers R_PC ((s.registers R_PC + 1) % 65536)
  let a := decode_operands instruction opcode registers arguments
  perform instruction opcode ⟨registers, s.memory⟩ a

/-! ## Startup and the fetch-execute loop of `main` (lines 310-349) -/

/-- A `uint16_t` as `fread` assembles it from two consecutive file bytes on the
little-endian host the program is written for (it byte-swaps each word it
fetches from the big-endian image). -/
def word_of_bytes (b0 b1 : Nat) : Nat := b0 % 256 + 256 * (b1 % 256)

/-- The complete 2-byte items `fread` delivers from a byte sequence. -/
def words_of_bytes : List Nat → List Nat
  | b0 :: b1 :: rest => word_of_bytes b0 b1 :: words_of_bytes rest
  | _ => []

/-- Startup part of `main` (lines 312-323) on the bytes of the image file: the
first item, byte-swapped, is `program_start`; at most
`END_OF_USER_SPACE - program_start` further items are copied unswapped to
`memory + program_start`; the globals are zero-initialised, then
`registers[R_PC] = program_start` and `registers[R_PSR] = COND_ZERO`.
No result when the header is missing (`program_start` uninitialised) or when
the item count `available_memory` would be negative. -/
def startup (file : List Nat) : Option Machine :=
  match words_of_bytes file with
  | [] => none
  | header :: image =>
    let program_start := switch_endianness header
    if END_OF_USER_SPACE < program_start then none
    else
      let available_memory := END_OF_USER_SPACE - program_start
      let loaded := image.take available_memory
      some
        { registers := store (store (fun _ => 0) R_PC program_start) R_PSR COND_ZERO
          memory := fun a =>
            if program_start ≤ a ∧ a < program_start + loaded.length then
              loaded.getD (a - program_start) 0
            else 0 }

/-- State in which the loop of `main` ended, with the number of `execute`
calls it made. -/
structure Halt where
  machine : Machine
  arguments : Nat → Nat
  output : List String
  cycles : Nat

/-- The `while (running)` loop of `main` (lines 334-344), bounded by `fuel`
iterations: fetch `switch_endianness(memory[registers[R_PC]])`, call `execute`,
continue while it returns non-zero.  `none` when the fuel runs out or an access
is outside `memory`. -/
def fetch_execute_loop :
    Nat → Machine → (Nat → Nat) → List String → Nat → Option Halt
  | 0, _, _, _, _ => none
  | fuel + 1, s, arguments, output, cycles =>
    (mem_read s.memory (s.registers R_PC)).bind fun w =>
      (execute (switch_endianness w) arguments s).bind fun o =>
        if o.ret ≠ 0 then
          fetch_execute_loop fuel o.machine o.arguments (output ++ o.output) (cycles + 1)
        else
          some ⟨o.machine, o.arguments, output ++ o.output, cycles + 1⟩

/-! ## Vocabulary of the statements -/

/-- The memory subscripts `execute` evaluates for `instruction` in state `s`
all lie inside `memory`: `registers[R_PC] + sign_extend(offset9, 9)` with the
incremented PC for the PC-relative opcodes, and
`registers[base] + sign_extend(offset6, 6)` for the base+offset opcodes.  (The
second subscript of `INSTR_LDI` and `INSTR_STI` is a `uint16_t` variable.) -/
def accesses_in_range (instruction : Nat) (s : Machine) : Prop :=
  let opcode := get_bits_between instruction 15 12
  if opcode = INSTR_LD ∨ opcode = INSTR_ST ∨ opcode = INSTR_LDI ∨ opcode = INSTR_STI then
    (s.registers R_PC + 1) % 65536 + sign_extend (get_bits_between instruction 8 0) 9
      < MAX_ADDRESSABLE
  else if opcode = INSTR_LDR ∨ opcode = INSTR_STR then
    s.registers (get_bits_between instruction 8 6)
      + sign_extend (get_bits_between instruction 5 0) 6 < MAX_ADDRESSABLE
  else True

instance (instruction : Nat) (s : Machine) : Decidable (accesses_in_range instruction s) := by
  unfold accesses_in_range
  exact inferInstance

/-- Array with every element zero. -/
def zeroed : Nat → Nat := fun _ => 0

/-- A state right after loading at the usual origin: PC = 0x3000, condition
code zero, everything else zero. -/
def at_origin : Machine :=
  ⟨store (store zeroed R_PC 0x3000) R_PSR COND_ZERO, zeroed⟩

/-! ## Concrete states used in the evaluations -/

/-- State for the load-indirect evaluations: PC = 0x3000, `memory[0x3000]` and
`memory[0x3002]` hold the pointer 0x4000 and `memory[0x4000]` the value 0x1234,
all in external byte order. -/
def indirect_state : Machine :=
  ⟨at_origin.registers,
    store (store (store zeroed 0x3000 0x0040) 0x3002 0x0040) 0x4000 0x3412⟩

/-- State with R1 = 1 and R2 = 0xFFFF, the sign extension of the immediate -1. -/
def add_operands_state : Machine :=
  ⟨store (store at_origin.registers R_1 1) R_2 0xFFFF, zeroed⟩

/-- State with R1 = 0x0020 and R2 = 0xFFFF. -/
def and_operands_state : Machine :=
  ⟨store (store at_origin.registers R_1 0x0020) R_2 0xFFFF, zeroed⟩

/-- Stated from the spec (4.1, `sign_extend`): the signed integer represented
by the low `n` bits of `v` read as a two's-complement number. -/
def twos_complement_value (v n : Nat) : Int :=
  if v % 2 ^ n < 2 ^ (n - 1) then ((v % 2 ^ n : Nat) : Int)
  else ((v % 2 ^ n : Nat) : Int) - ((2 ^ n : Nat) : Int)

/-- The opcodes whose case writes a destination register and then calls
`update_condition_code`: add, and, not, load, load-indirect, load-register and
load-effective-address. -/
@[reducible] def defines_register (opcode : Nat) : Prop :=
  opcode = INSTR_ADD ∨ opcode = INSTR_AND ∨ opcode = INSTR_NOT ∨ opcode = INSTR_LD ∨
    opcode = INSTR_LDI ∨ opcode = INSTR_LDR ∨ opcode = INSTR_LEA

/-- The opcodes whose case assigns to `memory`: store, store-indirect and
store-register. -/
@[reducible] def is_store (opcode : Nat) : Prop :=
  opcode = INSTR_ST ∨ opcode = INSTR_STI ∨ opcode = INSTR_STR

/-- The subscript of the word a load or store instruction transfers:
`registers[base] + sign_extend(offset6, 6)` for the base+offset opcodes, the
`pointer` read at `registers[R_PC] + sign_extend(offset9, 9)` for the indirect
opcodes, and `registers[R_PC] + sign_extend(offset9, 9)` itself otherwise, the
PC being the incremented one. -/
def effective_address (instruction : Nat) (s : Machine) : Nat :=
  if get_bits_between instruction 15 12 = INSTR_LDR
      ∨ get_bits_between instruction 15 12 = INSTR_STR then
    s.registers (get_bits_between instruction 8 6)
      + sign_extend (get_bits_between instruction 5 0) 6
  else if get_bits_between instruction 15 12 = INSTR_LDI
      ∨ get_bits_between instruction 15 12 = INSTR_STI then
    switch_endianness (s.memory ((s.registers R_PC + 1) % 65536
      + sign_extend (get_bits_between instruction 8 0) 9))
  else
    (s.registers R_PC + 1) % 65536 + sign_extend (get_bits_between instruction 8 0) 9

/-- State with R7 = 0x5000 for the jump-to-subroutine evaluation. -/
def subroutine_state : Machine :=
  ⟨store at_origin.registers R_7 0x5000, zeroed⟩

/-- What a call of `execute` leaves outside its scratch array: the two global
arrays, the returned value and the lines printed. -/
def observable (o : Outcome) : Machine × Nat × List String :=
  (o.machine, o.ret, o.output)

/-- The opcodes whose case in the second `switch` reads `arguments[0]`: all
but return-from-interrupt and the reserved opcode. -/
@[reducible] def reads_slot0 (opcode : Nat) : Prop :=
  opcode ≠ INSTR_RTI ∧ opcode ≠ INSTR_ILL

/-- The opcodes whose case in the second `switch` reads `arguments[1]`. -/
@[reducible] def reads_slot1 (opcode : Nat) : Prop :=
  opcode = INSTR_BR ∨ opcode = INSTR_ADD ∨ opcode = INSTR_LD ∨ opcode = INSTR_ST ∨
    opcode = INSTR_AND ∨ opcode = INSTR_LDR ∨ opcode = INSTR_STR ∨ opcode = INSTR_NOT ∨
    opcode = INSTR_LDI ∨ opcode = INSTR_STI ∨ opcode = INSTR_LEA

/-- The opcodes whose case in the second `switch` reads `arguments[2]`. -/
@[reducible] def reads_slot2 (opcode : Nat) : Prop :=
  opcode = INSTR_BR ∨ opcode = INSTR_ADD ∨ opcode = INSTR_AND ∨ opcode = INSTR_LDR ∨
    opcode = INSTR_STR

/-! ## Basic facts about the embedding -/

theorem store_apply (a : Nat → Nat) (i v j : Nat) :
    store a i v j = if j = i then v else a j := rfl

theorem get_bits_between_lt (instruction n k : Nat) (hk : k ≤ n + 1) :
    get_bits_between instruction n k < 2 ^ (n + 1 - k) := by
  unfold get_bits_between
  have h1 : instruction &&& ((1 <<< (n + 1)) - 1) < 2 ^ (n + 1) := by
    rw [Nat.one_shiftLeft]
    exact Nat.and_lt_two_pow _ (by
      have := Nat.two_pow_pos (n + 1)
      omega)
  have h2 : (instruction &&& ((1 <<< (n + 1)) - 1)) >>> k < 2 ^ (n + 1 - k) := by
    rw [Nat.shiftRight_eq_div_pow]
    apply Nat.div_lt_of_lt_mul
    rw [← Nat.pow_add]
    have : k + (n + 1 - k) = n + 1 := by omega
    rw [this]
    exact h1
  exact lt_of_le_of_lt (Nat.mod_le _ _) h2

/-- Register operands are decoded from 3-bit fields, so they index R0..R7. -/
theorem get_bits_between_three_lt (instruction k : Nat) :
    get_bits_between instruction (k + 2) k < 8 := by
  have h := get_bits_between_lt instruction (k + 2) k (by omega)
  have e : k + 2 + 1 - k = 3 := by omega
  rw [e] at h
  exact h

theorem opcode_lt (instruction : Nat) : get_bits_between instruction 15 12 < 16 :=
  get_bits_between_lt instruction 15 12 (by omega)

theorem switch_endianness_lt (w : Nat) : switch_endianness w < MAX_ADDRESSABLE :=
  Nat.mod_lt _ (by decide)

theorem psr_sign_bit (p : Nat) : p &&& 0x8000 = 0 ∨ p &&& 0x8000 = 0x8000 := by
  have h := Nat.and_two_pow p 15
  have e : (2 : Nat) ^ 15 = 0x8000 := by norm_num
  rw [e] at h
  cases hb : p.testBit 15 <;> simp [hb] at h <;> omega

/-- The flags `update_condition_code` leaves in PSR bits [2:0]. -/
theorem update_condition_code_flags (registers : Nat → Nat) (v : Nat) :
    get_bits_between (update_condition_code registers v R_PSR) 2 0
      = if v = 0 then COND_ZERO else COND_POS := by
  have hneg : ¬ ((v : Int) < 0) := by omega
  unfold update_condition_code
  rw [if_neg hneg]
  rcases psr_sign_bit (registers R_PSR) with h | h <;>
    by_cases hv : v = 0 <;>
    (simp [hv, store_apply, h, get_bits_between, COND_ZERO, COND_POS]; try rfl)

/-- Only the PSR is touched by `update_condition_code`. -/
theorem update_condition_code_other (registers : Nat → Nat) (v i : Nat) (hi : i ≠ R_PSR) :
    update_condition_code registers v i = registers i := by
  unfold update_condition_code
  split_ifs <;> simp [store_apply, hi]

/-- The destination register after a register write with condition-code
update, for a destination among R0..R7. -/
theorem write_dst_dst (registers a : Nat → Nat) (v : Nat) (hd : a 0 < 8) :
    write_dst registers a v (a 0) = v % 65536 := by
  unfold write_dst
  rw [update_condition_code_other _ _ _ (by simp [R_PSR]; omega)]
  simp [store_apply]

theorem write_dst_other (registers a : Nat → Nat) (v i : Nat) (h0 : i ≠ a 0)
    (h1 : i ≠ R_PSR) : write_dst registers a v i = registers i := by
  unfold write_dst
  rw [update_condition_code_other _ _ _ h1]
  simp [store_apply, h0]

theorem running_ret (r m a : Nat → Nat) (o : Outcome) (h : running r m a = some o) :
    o.ret = 1 ∧ o.output = [] := by
  unfold running at h
  cases h
  exact ⟨rfl, rfl⟩

/-- The value `execute` returns is 0 in the `TRAP_HALT` case and 1 otherwise. -/
theorem perform_ret (instruction opcode : Nat) (s : Machine) (a : Nat → Nat) (o : Outcome)
    (hlt : opcode < 16) (h : perform instruction opcode s a = some o) :
    o.ret = if opcode = INSTR_TRAP ∧ a 0 = TRAP_HALT then 0 else 1 := by
  have hbind : ∀ {α : Type} (x : Option α) (f : α → Option Outcome),
      (∀ w, f w = some o → o.ret = 1) → x.bind f = some o → o.ret = 1 := by
    intro α x f hf hx
    obtain ⟨w, -, hw⟩ := Option.bind_eq_some.mp hx
    exact hf w hw
  have hrun : ∀ r m, running r m a = some o → o.ret = 1 :=
    fun r m hh => (running_ret r m a o hh).1
  interval_cases opcode
  · change case_BR s a = some o at h
    unfold case_BR at h
    split_ifs at h <;> simpa [INSTR_TRAP] using hrun _ _ h
  · change case_ADD instruction s a = some o at h
    unfold case_ADD at h
    split_ifs at h <;> simpa [INSTR_TRAP] using hrun _ _ h
  · change case_LD s a = some o at h
    simpa [INSTR_TRAP] using hbind _ _ (fun w => hrun _ _) h
  · change case_ST s a = some o at h
    simpa [INSTR_TRAP] using hbind _ _ (fun w => hrun _ _) h
  · change case_JSR instruction s a = some o at h
    unfold case_JSR at h
    split_ifs at h <;> simpa [INSTR_TRAP] using hrun _ _ h
  · change case_AND instruction s a = some o at h
    unfold case_AND at h
    split_ifs at h <;> simpa [INSTR_TRAP] using hrun _ _ h
  · change case_LDR s a = some o at h
    simpa [INSTR_TRAP] using hbind _ _ (fun w => hrun _ _) h
  · change case_STR s a = some o at h
    simpa [INSTR_TRAP] using hbind _ _ (fun w => hrun _ _) h
  · change running s.registers s.memory a = some o at h
    simpa [INSTR_TRAP] using hrun _ _ h
  · change case_NOT s a = some o at h
    simpa [INSTR_TRAP] using hrun _ _ h
  · change case_LDI s a = some o at h
    simpa [INSTR_TRAP] using hbind _ _ (fun w => hbind _ _ (fun v => hrun _ _)) h
  · change case_STI s a = some o at h
    simpa [INSTR_TRAP] using hbind _ _ (fun w => hbind _ _ (fun v => hrun _ _)) h
  · change case_JMP s a = some o at h
    simpa [INSTR_TRAP] using hrun _ _ h
  · change running s.registers s.memory a = some o at h
    simpa [INSTR_TRAP] using hrun _ _ h
  · change case_LEA s a = some o at h
    simpa [INSTR_TRAP] using hrun _ _ h
  · change case_TRAP s a = some o at h
    unfold case_TRAP at h
    split_ifs at h with t0 t1 t2
    · cases h
      simp [t0, TRAP_PUTS, TRAP_HALT]
    · simpa [t1, TRAP_GETC, TRAP_HALT] using hrun _ _ h
    · cases h
      simp [t2, INSTR_TRAP]
    · simpa [t2] using hrun _ _ h

/-- With every subscript inside `memory`, `execute` returns. -/
theorem execute_defined (instruction : Nat) (arguments : Nat → Nat) (s : Machine)
    (hr : accesses_in_range instruction s) :
    ∃ o, execute instruction arguments s = some o := by
  have hlt := opcode_lt instruction
  have h86 : get_bits_between instruction 8 6 ≠ 8 :=
    Nat.ne_of_lt (get_bits_between_three_lt instruction 6)
  unfold accesses_in_range at hr
  unfold execute perform
  generalize get_bits_between instruction 15 12 = op at *
  interval_cases op <;>
    simp [INSTR_BR, INSTR_ADD, INSTR_LD, INSTR_ST, INSTR_JSR, INSTR_AND, INSTR_LDR, INSTR_STR,
      INSTR_RTI, INSTR_NOT, INSTR_LDI, INSTR_STI, INSTR_JMP, INSTR_ILL, INSTR_LEA, INSTR_TRAP,
      running, case_BR, case_ADD, case_LD, case_ST, case_JSR, case_AND, case_LDR, case_STR,
      case_NOT, case_LDI, case_STI, case_JMP, case_LEA, case_TRAP, decode_operands,
      store_apply, mem_read, mem_write, pc_offset_index, base_offset_index, R_PC, R_PSR, h86,
      switch_endianness_lt] at hr ⊢
  all_goals (try simp [hr])
  all_goals (try (split_ifs <;> simp))

theorem store_wf (a : Nat → Nat) (i v : Nat) (ha : ∀ j, a j < 65536) (hv : v < 65536) :
    ∀ j, store a i v j < 65536 := by
  intro j
  rw [store_apply]
  split_ifs
  · exact hv
  · exact ha j

theorem zeroed_wf : ∀ j, zeroed j < 65536 := by
  intro j
  show (0 : Nat) < 65536
  decide

/-- The state after loading holds 16-bit values only. -/
theorem at_origin_wf : at_origin.wf :=
  ⟨store_wf _ _ _ (store_wf _ _ _ zeroed_wf (by decide)) (by decide), zeroed_wf⟩

theorem indirect_state_wf : indirect_state.wf :=
  ⟨at_origin_wf.1,
    store_wf _ _ _ (store_wf _ _ _ (store_wf _ _ _ zeroed_wf (by decide)) (by decide))
      (by decide)⟩

theorem add_operands_state_wf : add_operands_state.wf :=
  ⟨store_wf _ _ _ (store_wf _ _ _ at_origin_wf.1 (by decide)) (by decide), zeroed_wf⟩

theorem and_operands_state_wf : and_operands_state.wf :=
  ⟨store_wf _ _ _ (store_wf _ _ _ at_origin_wf.1 (by decide)) (by decide), zeroed_wf⟩

/-- Outside the range of `accesses_in_range` the call has no result. -/
theorem execute_undefined (instruction : Nat) (arguments : Nat → Nat) (s : Machine)
    (hr : ¬ accesses_in_range instruction s) :
    execute instruction arguments s = none := by
  have hlt := opcode_lt instruction
  have h86 : get_bits_between instruction 8 6 ≠ 8 :=
    Nat.ne_of_lt (get_bits_between_three_lt instruction 6)
  unfold accesses_in_range at hr
  unfold execute perform
  generalize get_bits_between instruction 15 12 = op at *
  interval_cases op <;>
    simp [INSTR_BR, INSTR_ADD, INSTR_LD, INSTR_ST, INSTR_JSR, INSTR_AND, INSTR_LDR, INSTR_STR,
      INSTR_RTI, INSTR_NOT, INSTR_LDI, INSTR_STI, INSTR_JMP, INSTR_ILL, INSTR_LEA, INSTR_TRAP,
      case_LD, case_ST, case_LDR, case_STR, case_LDI, case_STI, decode_operands,
      store_apply, mem_read, mem_write, pc_offset_index, base_offset_index, R_PC, R_PSR, h86]
      at hr ⊢
  all_goals (intro h; omega)

/-- What `case INSTR_ADD` computes, for every state and every word with opcode
0001: in immediate mode the operand is the immediate sign-extended twice. -/
theorem add_result (instruction : Nat) (arguments : Nat → Nat) (s : Machine)
    (hop : get_bits_between instruction 15 12 = INSTR_ADD) :
    ∃ o, execute instruction arguments s = some o ∧
      o.machine.registers (get_bits_between instruction 11 9) =
        (if get_bits_between instruction 5 5 ≠ 0 then
          (s.registers (get_bits_between instruction 8 6)
            + sign_extend (sign_extend (get_bits_between instruction 4 0) 5) 5) % 65536
        else
          (s.registers (get_bits_between instruction 8 6)
            + s.registers (get_bits_between instruction 2 0)) % 65536) ∧
      o.machine.registers R_PC = (s.registers R_PC + 1) % 65536 ∧ o.ret = 1 := by
  have hd : get_bits_between instruction 11 9 < 8 := get_bits_between_three_lt instruction 9
  have h1 : get_bits_between instruction 8 6 < 8 := get_bits_between_three_lt instruction 6
  have h2 : get_bits_between instruction 2 0 < 8 := get_bits_between_three_lt instruction 0
  unfold execute
  rw [hop]
  change ∃ o, case_ADD _ _ _ = some o ∧ _
  unfold case_ADD
  by_cases hb : get_bits_between instruction 5 5 ≠ 0
  · have a0 : decode_operands instruction INSTR_ADD
        (store s.registers R_PC ((s.registers R_PC + 1) % 65536)) arguments 0
          = get_bits_between instruction 11 9 := by
      simp [decode_operands, INSTR_ADD, hb, store_apply]
    have a1 : decode_operands instruction INSTR_ADD
        (store s.registers R_PC ((s.registers R_PC + 1) % 65536)) arguments 1
          = get_bits_between instruction 8 6 := by
      simp [decode_operands, INSTR_ADD, hb, store_apply]
    have a2 : decode_operands instruction INSTR_ADD
        (store s.registers R_PC ((s.registers R_PC + 1) % 65536)) arguments 2
          = sign_extend (get_bits_between instruction 4 0) 5 := by
      simp [decode_operands, INSTR_ADD, hb, store_apply]
    rw [if_pos hb, if_pos hb]
    refine ⟨_, rfl, ?_, ?_, rfl⟩
    · show write_dst _ _ _ (get_bits_between instruction 11 9) = _
      rw [← a0, write_dst_dst _ _ _ (by rw [a0]; exact hd), a1, a2]
      simp only [store_apply, R_PC]
      rw [if_neg (by omega)]
    · show write_dst _ _ _ R_PC = _
      rw [write_dst_other _ _ _ _ (by rw [a0]; simp only [R_PC]; omega) (by decide)]
      simp [store_apply]
  · have a0 : decode_operands instruction INSTR_ADD
        (store s.registers R_PC ((s.registers R_PC + 1) % 65536)) arguments 0
          = get_bits_between instruction 11 9 := by
      simp [decode_operands, INSTR_ADD, hb, store_apply]
    have a1 : decode_operands instruction INSTR_ADD
        (store s.registers R_PC ((s.registers R_PC + 1) % 65536)) arguments 1
          = get_bits_between instruction 8 6 := by
      simp [decode_operands, INSTR_ADD, hb, store_apply]
    have a2 : decode_operands instruction INSTR_ADD
        (store s.registers R_PC ((s.registers R_PC + 1) % 65536)) arguments 2
          = get_bits_between instruction 2 0 := by
      simp [decode_operands, INSTR_ADD, hb, store_apply]
    rw [if_neg hb, if_neg hb]
    refine ⟨_, rfl, ?_, ?_, rfl⟩
    · show write_dst _ _ _ (get_bits_between instruction 11 9) = _
      rw [← a0, write_dst_dst _ _ _ (by rw [a0]; exact hd), a1, a2]
      simp only [store_apply, R_PC]
      rw [if_neg (by omega), if_neg (by omega)]
    · show write_dst _ _ _ R_PC = _
      rw [write_dst_other _ _ _ _ (by rw [a0]; simp only [R_PC]; omega) (by decide)]
      simp [store_apply]

/-- The operand of the immediate mode against the two's-complement value of
the 5-bit field: equal for 0..15, 32 lower for the negative immediates. -/
theorem sign_extend_twice (v : Nat) (hv : v < 32) :
    sign_extend v 5 = (if v < 16 then v else 65504 + v) ∧
    sign_extend (sign_extend v 5) 5 = (if v < 16 then v else 65472 + v) := by
  interval_cases v <;> exact ⟨rfl, rfl⟩

/-- What `case INSTR_LDI` computes when its first subscript is inside `memory`:
two byte-swapped reads. -/
theorem load_indirect_result (instruction : Nat) (arguments : Nat → Nat) (s : Machine)
    (hop : get_bits_between instruction 15 12 = INSTR_LDI)
    (hr : (s.registers R_PC + 1) % 65536 + sign_extend (get_bits_between instruction 8 0) 9
      < MAX_ADDRESSABLE) :
    ∃ o, execute instruction arguments s = some o ∧
      o.machine.registers (get_bits_between instruction 11 9) =
        switch_endianness (s.memory (switch_endianness (s.memory
          ((s.registers R_PC + 1) % 65536
            + sign_extend (get_bits_between instruction 8 0) 9)))) := by
  have hd : get_bits_between instruction 11 9 < 8 := get_bits_between_three_lt instruction 9
  unfold execute
  rw [hop]
  change ∃ o, case_LDI _ _ = some o ∧ _
  have a0 : decode_operands instruction INSTR_LDI
      (store s.registers R_PC ((s.registers R_PC + 1) % 65536)) arguments 0
        = get_bits_between instruction 11 9 := rfl
  have a1 : decode_operands instruction INSTR_LDI
      (store s.registers R_PC ((s.registers R_PC + 1) % 65536)) arguments 1
        = get_bits_between instruction 8 0 := rfl
  have hi : pc_offset_index (store s.registers R_PC ((s.registers R_PC + 1) % 65536))
      (decode_operands instruction INSTR_LDI
        (store s.registers R_PC ((s.registers R_PC + 1) % 65536)) arguments)
      = (s.registers R_PC + 1) % 65536 + sign_extend (get_bits_between instruction 8 0) 9 := by
    unfold pc_offset_index
    rw [a1]
    simp [store_apply]
  unfold case_LDI
  rw [hi]
  simp only [mem_read, if_pos hr, if_pos (switch_endianness_lt _), Option.some_bind]
  refine ⟨_, rfl, ?_⟩
  show write_dst _ _ _ (get_bits_between instruction 11 9) = _
  rw [← a0, write_dst_dst _ _ _ (by rw [a0]; exact hd)]
  exact Nat.mod_eq_of_lt (switch_endianness_lt _)

/-! ## Bit-level facts -/

/-- Arithmetic reading of `get_bits_between` for the bit positions of a word. -/
theorem get_bits_between_eq (w hi lo : Nat) (hhi : hi ≤ 15) :
    get_bits_between w hi lo = w % 2 ^ (hi + 1) / 2 ^ lo := by
  unfold get_bits_between
  rw [Nat.one_shiftLeft, Nat.and_pow_two_sub_one_eq_mod, Nat.shiftRight_eq_div_pow]
  apply Nat.mod_eq_of_lt
  have h1 : w % 2 ^ (hi + 1) < 2 ^ (hi + 1) := Nat.mod_lt _ (Nat.two_pow_pos _)
  have h2 : 2 ^ (hi + 1) ≤ 2 ^ 16 := Nat.pow_le_pow_right (by decide) (by omega)
  have h3 : w % 2 ^ (hi + 1) / 2 ^ lo ≤ w % 2 ^ (hi + 1) := Nat.div_le_self _ _
  have h4 : (2 : Nat) ^ 16 = 65536 := by norm_num
  omega

/-- Exclusive or with a power of two above the operand adds it. -/
theorem xor_two_pow_of_lt (g k : Nat) (hg : g < 2 ^ k) : g ^^^ 2 ^ k = g + 2 ^ k := by
  have hor : 2 ^ k + g = 2 ^ k ||| g := by
    have := Nat.mul_add_lt_is_or hg 1
    simpa using this
  rw [Nat.add_comm, hor]
  apply Nat.eq_of_testBit_eq
  intro i
  rw [Nat.testBit_xor, Nat.testBit_or, Nat.testBit_two_pow]
  by_cases hik : k = i
  · subst hik
    simp [Nat.testBit_lt_two_pow hg]
  · simp [hik]

/-- Exclusive or with a power of two that is set in the operand removes it. -/
theorem xor_two_pow_of_ge (f k : Nat) (h1 : 2 ^ k ≤ f) (h2 : f < 2 ^ (k + 1)) :
    f ^^^ 2 ^ k = f - 2 ^ k := by
  have hg : f - 2 ^ k < 2 ^ k := by
    rw [Nat.pow_succ] at h2
    omega
  have e := xor_two_pow_of_lt (f - 2 ^ k) k hg
  have e2 : f - 2 ^ k + 2 ^ k = f := by omega
  rw [e2] at e
  have e3 : f ^^^ 2 ^ k = (f - 2 ^ k ^^^ 2 ^ k) ^^^ 2 ^ k := by rw [e]
  rw [e3, Nat.xor_assoc, Nat.xor_self, Nat.xor_zero]

/-- The value of `sign_extend` on an `n`-bit field, for the widths of a word. -/
theorem sign_extend_eq (f n : Nat) (hn1 : 1 ≤ n) (hn16 : n ≤ 16) (hf : f < 2 ^ n) :
    sign_extend f n = if f < 2 ^ (n - 1) then f else f + 65536 - 2 ^ n := by
  obtain ⟨k, rfl⟩ : ∃ k, n = k + 1 := ⟨n - 1, by omega⟩
  have hk : k ≤ 15 := by omega
  have hp : 2 ^ k ≤ 2 ^ 15 := Nat.pow_le_pow_right (by decide) hk
  have h15 : (2 : Nat) ^ 15 = 32768 := by norm_num
  have hmask : (1 <<< k) % 65536 = 2 ^ k := by
    rw [Nat.one_shiftLeft]
    exact Nat.mod_eq_of_lt (by omega)
  have hsucc : 2 ^ (k + 1) = 2 * 2 ^ k := by rw [Nat.pow_succ]; omega
  unfold sign_extend to_u16
  simp only [Nat.add_sub_cancel, hmask]
  by_cases hlt : f < 2 ^ k
  · rw [if_pos hlt, xor_two_pow_of_lt f k hlt]
    have : ((f + 2 ^ k : Nat) : Int) - ((2 ^ k : Nat) : Int) = (f : Int) := by
      push_cast
      omega
    rw [this]
    omega
  · rw [if_neg hlt, xor_two_pow_of_ge f k (by omega) hf]
    have : ((f - 2 ^ k : Nat) : Int) - ((2 ^ k : Nat) : Int) = (f : Int) - 2 * ((2 ^ k : Nat) : Int) := by
      omega
    rw [this]
    omega

/-- Bit 15 of a PSR value as isolated by `& 0x8000`. -/
theorem and_sign_bit (p : Nat) : p &&& 0x8000 = p / 32768 % 2 * 32768 := by
  have h := Nat.and_two_pow p 15
  have e : (2 : Nat) ^ 15 = 32768 := by norm_num
  rw [e] at h
  rw [h, Nat.toNat_testBit, e]

/-- The PSR value `update_condition_code` writes: bit 15 of the old value plus
the flag. -/
theorem update_condition_code_psr (registers : Nat → Nat) (v : Nat) :
    update_condition_code registers v R_PSR
      = (registers R_PSR &&& 0x8000) + (if v = 0 then COND_ZERO else COND_POS) := by
  have hneg : ¬ ((v : Int) < 0) := by omega
  have hb := and_sign_bit (registers R_PSR)
  unfold update_condition_code
  rw [if_neg hneg]
  by_cases hv : v = 0
  · rw [if_pos hv, if_pos hv]
    simp only [store_apply, if_true, COND_ZERO]
    omega
  · rw [if_neg hv, if_neg hv]
    simp only [store_apply, if_true, COND_POS]
    omega

/-- Bit `k` of a value below `2^(k+1)` tells whether it reaches `2^k`. -/
theorem testBit_top (f k : Nat) (hf : f < 2 ^ (k + 1)) :
    f.testBit k = decide (2 ^ k ≤ f) := by
  rw [Nat.testBit_to_div_mod]
  have hpos : 0 < 2 ^ k := Nat.two_pow_pos k
  have hs : 2 ^ (k + 1) = 2 * 2 ^ k := by rw [Nat.pow_succ]; omega
  by_cases h : 2 ^ k ≤ f
  · have e : f / 2 ^ k = 1 := by
      apply Nat.div_eq_of_lt_le
      · omega
      · omega
    simp [e, h]
  · have e : f / 2 ^ k = 0 := Nat.div_eq_of_lt (by omega)
    simp [e, h]

/-! ## Frame facts of `execute` -/

theorem running_eq_some (r m a : Nat → Nat) (o : Outcome) :
    running r m a = some o ↔ o = ⟨⟨r, m⟩, a, [], 1⟩ := by
  unfold running
  constructor
  · intro h
    exact (Option.some.inj h).symm
  · intro h
    rw [h]

/-- The PSR after a register write with condition-code update. -/
theorem write_dst_psr (registers a : Nat → Nat) (v : Nat) (h0 : a 0 ≠ R_PSR) :
    write_dst registers a v R_PSR
      = (registers R_PSR &&& 0x8000) + (if v % 65536 = 0 then COND_ZERO else COND_POS) := by
  unfold write_dst
  rw [update_condition_code_psr]
  simp only [store_apply, if_true]
  rw [if_neg (Ne.symm h0)]

/-- The PSR after the second `switch`: rewritten from its bit 15 and a flag by
the cases that define a register, untouched by every other case. -/
theorem perform_psr (instruction opcode : Nat) (s : Machine) (a : Nat → Nat) (o : Outcome)
    (hlt : opcode < 16) (h0 : defines_register opcode → a 0 ≠ R_PSR)
    (h : perform instruction opcode s a = some o) :
    (defines_register opcode → ∃ v, o.machine.registers R_PSR
      = (s.registers R_PSR &&& 0x8000) + (if v = 0 then COND_ZERO else COND_POS)) ∧
    (¬ defines_register opcode → o.machine.registers R_PSR = s.registers R_PSR) := by
  interval_cases opcode
  · change case_BR s a = some o at h
    unfold case_BR at h
    split_ifs at h <;>
    · obtain rfl := (running_eq_some _ _ _ _).mp h
      exact ⟨fun hd => absurd hd (by decide), fun _ => rfl⟩
  · change case_ADD instruction s a = some o at h
    unfold case_ADD at h
    split_ifs at h <;>
    · obtain rfl := (running_eq_some _ _ _ _).mp h
      exact ⟨fun _ => ⟨_, write_dst_psr _ _ _ (h0 (by decide))⟩, fun hn => absurd (by decide) hn⟩
  · change case_LD s a = some o at h
    unfold case_LD at h
    obtain ⟨w, -, h⟩ := Option.bind_eq_some.mp h
    · obtain rfl := (running_eq_some _ _ _ _).mp h
      exact ⟨fun _ => ⟨_, write_dst_psr _ _ _ (h0 (by decide))⟩, fun hn => absurd (by decide) hn⟩
  · change case_ST s a = some o at h
    unfold case_ST at h
    obtain ⟨w, -, h⟩ := Option.bind_eq_some.mp h
    · obtain rfl := (running_eq_some _ _ _ _).mp h
      exact ⟨fun hd => absurd hd (by decide), fun _ => rfl⟩
  · change case_JSR instruction s a = some o at h
    unfold case_JSR at h
    split_ifs at h <;>
    · obtain rfl := (running_eq_some _ _ _ _).mp h
      exact ⟨fun hd => absurd hd (by decide), fun _ => rfl⟩
  · change case_AND instruction s a = some o at h
    unfold case_AND at h
    split_ifs at h <;>
    · obtain rfl := (running_eq_some _ _ _ _).mp h
      exact ⟨fun _ => ⟨_, write_dst_psr _ _ _ (h0 (by decide))⟩, fun hn => absurd (by decide) hn⟩
  · change case_LDR s a = some o at h
    unfold case_LDR at h
    obtain ⟨w, -, h⟩ := Option.bind_eq_some.mp h
    · obtain rfl := (running_eq_some _ _ _ _).mp h
      exact ⟨fun _ => ⟨_, write_dst_psr _ _ _ (h0 (by decide))⟩, fun hn => absurd (by decide) hn⟩
  · change case_STR s a = some o at h
    unfold case_STR at h
    obtain ⟨w, -, h⟩ := Option.bind_eq_some.mp h
    · obtain rfl := (running_eq_some _ _ _ _).mp h
      exact ⟨fun hd => absurd hd (by decide), fun _ => rfl⟩
  · change running s.registers s.memory a = some o at h
    · obtain rfl := (running_eq_some _ _ _ _).mp h
      exact ⟨fun hd => absurd hd (by decide), fun _ => rfl⟩
  · change case_NOT s a = some o at h
    unfold case_NOT at h
    · obtain rfl := (running_eq_some _ _ _ _).mp h
      exact ⟨fun _ => ⟨_, write_dst_psr _ _ _ (h0 (by decide))⟩, fun hn => absurd (by decide) hn⟩
  · change case_LDI s a = some o at h
    unfold case_LDI at h
    obtain ⟨w, -, h⟩ := Option.bind_eq_some.mp h
    obtain ⟨w2, -, h⟩ := Option.bind_eq_some.mp h
    · obtain rfl := (running_eq_some _ _ _ _).mp h
      exact ⟨fun _ => ⟨_, write_dst_psr _ _ _ (h0 (by decide))⟩, fun hn => absurd (by decide) hn⟩
  · change case_STI s a = some o at h
    unfold case_STI at h
    obtain ⟨w, -, h⟩ := Option.bind_eq_some.mp h
    obtain ⟨w2, -, h⟩ := Option.bind_eq_some.mp h
    · obtain rfl := (running_eq_some _ _ _ _).mp h
      exact ⟨fun hd => absurd hd (by decide), fun _ => rfl⟩
  · change case_JMP s a = some o at h
    unfold case_JMP at h
    · obtain rfl := (running_eq_some _ _ _ _).mp h
      exact ⟨fun hd => absurd hd (by decide), fun _ => rfl⟩
  · change running s.registers s.memory a = some o at h
    · obtain rfl := (running_eq_some _ _ _ _).mp h
      exact ⟨fun hd => absurd hd (by decide), fun _ => rfl⟩
  · change case_LEA s a = some o at h
    unfold case_LEA at h
    · obtain rfl := (running_eq_some _ _ _ _).mp h
      exact ⟨fun _ => ⟨_, write_dst_psr _ _ _ (h0 (by decide))⟩, fun hn => absurd (by decide) hn⟩
  · change case_TRAP s a = some o at h
    unfold case_TRAP at h
    split_ifs at h <;>
    · first
      | obtain rfl := (running_eq_some _ _ _ _).mp h
      | obtain rfl := (Option.some.inj h).symm
      exact ⟨fun hd => absurd hd (by decide), fun _ => rfl⟩

/-- Memory after the second `switch`: one word assigned by the three store
cases, untouched by every other case. -/
theorem perform_memory (instruction opcode : Nat) (s : Machine) (a : Nat → Nat) (o : Outcome)
    (hlt : opcode < 16) (h : perform instruction opcode s a = some o) :
    o.machine.memory =
      if opcode = INSTR_ST then
        store s.memory (pc_offset_index s.registers a) (switch_endianness (s.registers (a 0)))
      else if opcode = INSTR_STR then
        store s.memory (base_offset_index s.registers a)
          (switch_endianness (s.registers (a 0)))
      else if opcode = INSTR_STI then
        store s.memory (switch_endianness (s.memory (pc_offset_index s.registers a)))
          (switch_endianness (s.registers (a 0)))
      else s.memory := by
  interval_cases opcode
  · change case_BR s a = some o at h
    unfold case_BR at h
    split_ifs at h <;>
    · obtain rfl := (running_eq_some _ _ _ _).mp h
      rfl
  · change case_ADD instruction s a = some o at h
    unfold case_ADD at h
    split_ifs at h <;>
    · obtain rfl := (running_eq_some _ _ _ _).mp h
      rfl
  · change case_LD s a = some o at h
    unfold case_LD at h
    obtain ⟨w, -, h⟩ := Option.bind_eq_some.mp h
    obtain rfl := (running_eq_some _ _ _ _).mp h
    rfl
  · change case_ST s a = some o at h
    unfold case_ST at h
    obtain ⟨w, hw, h⟩ := Option.bind_eq_some.mp h
    obtain rfl := (running_eq_some _ _ _ _).mp h
    unfold mem_write at hw
    split_ifs at hw
    exact (Option.some.inj hw).symm
  · change case_JSR instruction s a = some o at h
    unfold case_JSR at h
    split_ifs at h <;>
    · obtain rfl := (running_eq_some _ _ _ _).mp h
      rfl
  · change case_AND instruction s a = some o at h
    unfold case_AND at h
    split_ifs at h <;>
    · obtain rfl := (running_eq_some _ _ _ _).mp h
      rfl
  · change case_LDR s a = some o at h
    unfold case_LDR at h
    obtain ⟨w, -, h⟩ := Option.bind_eq_some.mp h
    obtain rfl := (running_eq_some _ _ _ _).mp h
    rfl
  · change case_STR s a = some o at h
    unfold case_STR at h
    obtain ⟨w, hw, h⟩ := Option.bind_eq_some.mp h
    obtain rfl := (running_eq_some _ _ _ _).mp h
    unfold mem_write at hw
    split_ifs at hw
    exact (Option.some.inj hw).symm
  · change running s.registers s.memory a = some o at h
    obtain rfl := (running_eq_some _ _ _ _).mp h
    rfl
  · change case_NOT s a = some o at h
    unfold case_NOT at h
    obtain rfl := (running_eq_some _ _ _ _).mp h
    rfl
  · change case_LDI s a = some o at h
    unfold case_LDI at h
    obtain ⟨w, -, h⟩ := Option.bind_eq_some.mp h
    obtain ⟨w2, -, h⟩ := Option.bind_eq_some.mp h
    obtain rfl := (running_eq_some _ _ _ _).mp h
    rfl
  · change case_STI s a = some o at h
    unfold case_STI at h
    obtain ⟨w, hw, h⟩ := Option.bind_eq_some.mp h
    obtain ⟨w2, hw2, h⟩ := Option.bind_eq_some.mp h
    obtain rfl := (running_eq_some _ _ _ _).mp h
    unfold mem_read at hw
    split_ifs at hw
    obtain rfl := Option.some.inj hw
    unfold mem_write at hw2
    split_ifs at hw2
    exact (Option.some.inj hw2).symm
  · change case_JMP s a = some o at h
    unfold case_JMP at h
    obtain rfl := (running_eq_some _ _ _ _).mp h
    rfl
  · change running s.registers s.memory a = some o at h
    obtain rfl := (running_eq_some _ _ _ _).mp h
    rfl
  · change case_LEA s a = some o at h
    unfold case_LEA at h
    obtain rfl := (running_eq_some _ _ _ _).mp h
    rfl
  · change case_TRAP s a = some o at h
    unfold case_TRAP at h
    split_ifs at h <;>
    · first
      | obtain rfl := (running_eq_some _ _ _ _).mp h
      | obtain rfl := (Option.some.inj h).symm
      rfl

/-- Slot 0 of the decoded operands is the register field [11:9] for every
opcode that loads, stores or computes into a register. -/
theorem decode_dst (instruction opcode : Nat) (r a : Nat → Nat)
    (h : defines_register opcode ∨ is_store opcode) :
    decode_operands instruction opcode r a 0 = get_bits_between instruction 11 9 := by
  have harith : ∀ op, op = INSTR_ADD ∨ op = INSTR_AND ∨ op = INSTR_NOT →
      decode_operands instruction op r a 0 = get_bits_between instruction 11 9 := by
    intro op hop
    unfold decode_operands
    rw [if_pos hop]
    split_ifs <;> rfl
  rcases h with (h | h | h | h | h | h | h) | (h | h | h)
  · exact harith _ (Or.inl h)
  · exact harith _ (Or.inr (Or.inl h))
  · exact harith _ (Or.inr (Or.inr h))
  all_goals
    subst h
    rfl

/-- Registers R0..R7 and the PSR are not touched by the PC increment. -/
theorem incremented_other (registers : Nat → Nat) (v i : Nat) (hi : i ≠ R_PC) :
    store registers R_PC v i = registers i := by
  rw [store_apply, if_neg hi]

/-- The PSR after `execute`: rewritten from its bit 15 and a flag by the
opcodes that define a register, untouched by every other opcode. -/
theorem execute_psr (instruction : Nat) (arguments : Nat → Nat) (s : Machine) (o : Outcome)
    (h : execute instruction arguments s = some o) :
    (defines_register (get_bits_between instruction 15 12) →
      ∃ v, o.machine.registers R_PSR
        = (s.registers R_PSR &&& 0x8000) + (if v = 0 then COND_ZERO else COND_POS)) ∧
    (¬ defines_register (get_bits_between instruction 15 12) →
      o.machine.registers R_PSR = s.registers R_PSR) := by
  have hd : get_bits_between instruction 11 9 < 8 := get_bits_between_three_lt instruction 9
  have e : store s.registers R_PC ((s.registers R_PC + 1) % 65536) R_PSR = s.registers R_PSR :=
    incremented_other _ _ _ (by decide)
  have hp := perform_psr instruction (get_bits_between instruction 15 12)
    ⟨store s.registers R_PC ((s.registers R_PC + 1) % 65536), s.memory⟩
    (decode_operands instruction (get_bits_between instruction 15 12)
      (store s.registers R_PC ((s.registers R_PC + 1) % 65536)) arguments) o
    (opcode_lt instruction)
    (fun hdef => by
      rw [decode_dst _ _ _ _ (Or.inl hdef)]
      simp only [R_PSR]
      omega) h
  dsimp only at hp
  rw [e] at hp
  exact hp

/-- Memory after `execute`: the store opcodes assign the byte-swapped source
register to the word at the effective address, every other opcode leaves
memory as it was. -/
theorem execute_memory (instruction : Nat) (arguments : Nat → Nat) (s : Machine)
    (o : Outcome) (h : execute instruction arguments s = some o) :
    o.machine.memory =
      if is_store (get_bits_between instruction 15 12) then
        store s.memory (effective_address instruction s)
          (switch_endianness (s.registers (get_bits_between instruction 11 9)))
      else s.memory := by
  have hd : get_bits_between instruction 11 9 ≠ R_PC :=
    Nat.ne_of_lt (get_bits_between_three_lt instruction 9)
  have hb : get_bits_between instruction 8 6 ≠ R_PC :=
    Nat.ne_of_lt (get_bits_between_three_lt instruction 6)
  have hpc : store s.registers R_PC ((s.registers R_PC + 1) % 65536) R_PC
      = (s.registers R_PC + 1) % 65536 := by
    rw [store_apply, if_pos rfl]
  unfold execute at h
  have hm := perform_memory _ _ _ _ o (opcode_lt instruction) h
  dsimp only at hm
  by_cases h1 : get_bits_between instruction 15 12 = INSTR_ST
  · rw [h1] at hm
    rw [if_pos rfl] at hm
    have a0 := decode_dst instruction INSTR_ST
      (store s.registers R_PC ((s.registers R_PC + 1) % 65536)) arguments (Or.inr (Or.inl rfl))
    have a1 : decode_operands instruction INSTR_ST
        (store s.registers R_PC ((s.registers R_PC + 1) % 65536)) arguments 1
          = get_bits_between instruction 8 0 := rfl
    unfold pc_offset_index at hm
    rw [a0, a1, incremented_other _ _ _ hd, hpc] at hm
    rw [hm, if_pos (Or.inl h1)]
    unfold effective_address
    rw [h1, if_neg (by decide), if_neg (by decide)]
  · by_cases h2 : get_bits_between instruction 15 12 = INSTR_STR
    · rw [h2] at hm
      rw [if_neg (by decide), if_pos rfl] at hm
      have a0 := decode_dst instruction INSTR_STR
        (store s.registers R_PC ((s.registers R_PC + 1) % 65536)) arguments
        (Or.inr (Or.inr (Or.inr rfl)))
      have a1 : decode_operands instruction INSTR_STR
          (store s.registers R_PC ((s.registers R_PC + 1) % 65536)) arguments 1
            = get_bits_between instruction 8 6 := rfl
      have a2 : decode_operands instruction INSTR_STR
          (store s.registers R_PC ((s.registers R_PC + 1) % 65536)) arguments 2
            = get_bits_between instruction 5 0 := rfl
      unfold base_offset_index at hm
      rw [a0, a1, a2, incremented_other _ _ _ hd, incremented_other _ _ _ hb] at hm
      rw [hm, if_pos (Or.inr (Or.inr h2))]
      unfold effective_address
      rw [h2, if_pos (Or.inr rfl)]
    · by_cases h3 : get_bits_between instruction 15 12 = INSTR_STI
      · rw [h3] at hm
        rw [if_neg (by decide), if_neg (by decide), if_pos rfl] at hm
        have a0 := decode_dst instruction INSTR_STI
          (store s.registers R_PC ((s.registers R_PC + 1) % 65536)) arguments
          (Or.inr (Or.inr (Or.inl rfl)))
        have a1 : decode_operands instruction INSTR_STI
            (store s.registers R_PC ((s.registers R_PC + 1) % 65536)) arguments 1
              = get_bits_between instruction 8 0 := rfl
        unfold pc_offset_index at hm
        rw [a0, a1, incremented_other _ _ _ hd, hpc] at hm
        rw [hm, if_pos (Or.inr (Or.inl h3))]
        unfold effective_address
        rw [h3, if_neg (by decide), if_pos (Or.inr rfl)]
      · have hn : ¬ is_store (get_bits_between instruction 15 12) := by
          rintro (h | h | h)
          · exact h1 h
          · exact h3 h
          · exact h2 h
        rw [if_neg h1, if_neg h2, if_neg h3] at hm
        rw [hm, if_neg hn]

theorem subroutine_state_wf : subroutine_state.wf :=
  ⟨store_wf _ _ _ at_origin_wf.1 (by decide), zeroed_wf⟩

/-- What `case INSTR_JSR` computes, for every state and every word with opcode
0100: R7 receives the incremented PC first, and in register mode the new PC is
read from the register array after that write. -/
theorem jsr_result (instruction : Nat) (arguments : Nat → Nat) (s : Machine)
    (hop : get_bits_between instruction 15 12 = INSTR_JSR) :
    ∃ o, execute instruction arguments s = some o ∧
      o.machine.registers R_7 = (s.registers R_PC + 1) % 65536 ∧
      o.machine.registers R_PC =
        (if get_bits_between instruction 11 11 ≠ 0 then
          (s.registers R_PC + 1 + sign_extend (get_bits_between instruction 10 0) 11) % 65536
        else if get_bits_between instruction 8 6 = R_7 then
          (s.registers R_PC + 1) % 65536
        else s.registers (get_bits_between instruction 8 6)) := by
  have hb : get_bits_between instruction 8 6 < 8 := get_bits_between_three_lt instruction 6
  unfold execute
  rw [hop]
  change ∃ o, case_JSR _ _ _ = some o ∧ _
  unfold case_JSR
  by_cases h11 : get_bits_between instruction 11 11 ≠ 0
  · have a0 : decode_operands instruction INSTR_JSR
        (store s.registers R_PC ((s.registers R_PC + 1) % 65536)) arguments 0
          = get_bits_between instruction 10 0 := by
      simp [decode_operands, INSTR_JSR, INSTR_ADD, INSTR_AND, INSTR_NOT, INSTR_BR, INSTR_LD,
        INSTR_LDI, INSTR_LEA, INSTR_ST, INSTR_STI, INSTR_LDR, INSTR_STR, h11, store_apply]
    rw [if_pos h11, if_pos h11]
    refine ⟨_, rfl, ?_, ?_⟩
    · dsimp only
      simp [store_apply, R_7, R_PC]
    · dsimp only
      rw [a0]
      simp [store_apply, R_7, R_PC]
  · have a0 : decode_operands instruction INSTR_JSR
        (store s.registers R_PC ((s.registers R_PC + 1) % 65536)) arguments 0
          = get_bits_between instruction 8 6 := by
      simp [decode_operands, INSTR_JSR, INSTR_ADD, INSTR_AND, INSTR_NOT, INSTR_BR, INSTR_LD,
        INSTR_LDI, INSTR_LEA, INSTR_ST, INSTR_STI, INSTR_LDR, INSTR_STR, h11, store_apply]
    have h8 : get_bits_between instruction 8 6 ≠ 8 := by omega
    rw [if_neg h11, if_neg h11]
    refine ⟨_, rfl, ?_, ?_⟩
    · dsimp only
      simp [store_apply, R_7, R_PC]
    · dsimp only
      rw [a0]
      by_cases h7 : get_bits_between instruction 8 6 = 7
      · simp [store_apply, R_7, R_PC, h7]
      · simp [store_apply, R_7, R_PC, h7, h8]

/-- The second `switch` reads the operand slots listed by `reads_slot0`,
`reads_slot1` and `reads_slot2` only: two operand arrays that agree there give
the same registers, memory, return value and output. -/
theorem perform_congr (instruction opcode : Nat) (s : Machine) (a b : Nat → Nat)
    (hlt : opcode < 16) (h0 : reads_slot0 opcode → a 0 = b 0)
    (h1 : reads_slot1 opcode → a 1 = b 1) (h2 : reads_slot2 opcode → a 2 = b 2) :
    (perform instruction opcode s a).map observable
      = (perform instruction opcode s b).map observable := by
  interval_cases opcode
  · have e0 := h0 (by decide)
    have e1 := h1 (by decide)
    have e2 := h2 (by decide)
    change (case_BR s a).map observable = (case_BR s b).map observable
    simp only [case_BR, running, write_dst, pc_offset_index, base_offset_index, mem_read,
      mem_write, e0, e1, e2]
    repeat' split
    all_goals rfl
  · have e0 := h0 (by decide)
    have e1 := h1 (by decide)
    have e2 := h2 (by decide)
    change (case_ADD instruction s a).map observable = (case_ADD instruction s b).map observable
    simp only [case_ADD, running, write_dst, pc_offset_index, base_offset_index, mem_read,
      mem_write, e0, e1, e2]
    repeat' split
    all_goals rfl
  · have e0 := h0 (by decide)
    have e1 := h1 (by decide)
    change (case_LD s a).map observable = (case_LD s b).map observable
    simp only [case_LD, running, write_dst, pc_offset_index, base_offset_index, mem_read,
      mem_write, e0, e1]
    repeat' split
    all_goals rfl
  · have e0 := h0 (by decide)
    have e1 := h1 (by decide)
    change (case_ST s a).map observable = (case_ST s b).map observable
    simp only [case_ST, running, write_dst, pc_offset_index, base_offset_index, mem_read,
      mem_write, e0, e1]
    repeat' split
    all_goals rfl
  · have e0 := h0 (by decide)
    change (case_JSR instruction s a).map observable = (case_JSR instruction s b).map observable
    simp only [case_JSR, running, write_dst, pc_offset_index, base_offset_index, mem_read,
      mem_write, e0]
    repeat' split
    all_goals rfl
  · have e0 := h0 (by decide)
    have e1 := h1 (by decide)
    have e2 := h2 (by decide)
    change (case_AND instruction s a).map observable = (case_AND instruction s b).map observable
    simp only [case_AND, running, write_dst, pc_offset_index, base_offset_index, mem_read,
      mem_write, e0, e1, e2]
    repeat' split
    all_goals rfl
  · have e0 := h0 (by decide)
    have e1 := h1 (by decide)
    have e2 := h2 (by decide)
    change (case_LDR s a).map observable = (case_LDR s b).map observable
    simp only [case_LDR, running, write_dst, pc_offset_index, base_offset_index, mem_read,
      mem_write, e0, e1, e2]
    repeat' split
    all_goals rfl
  · have e0 := h0 (by decide)
    have e1 := h1 (by decide)
    have e2 := h2 (by decide)
    change (case_STR s a).map observable = (case_STR s b).map observable
    simp only [case_STR, running, write_dst, pc_offset_index, base_offset_index, mem_read,
      mem_write, e0, e1, e2]
    repeat' split
    all_goals rfl
  · rfl
  · have e0 := h0 (by decide)
    have e1 := h1 (by decide)
    change (case_NOT s a).map observable = (case_NOT s b).map observable
    simp only [case_NOT, running, write_dst, pc_offset_index, base_offset_index, mem_read,
      mem_write, e0, e1]
    rfl
  · have e0 := h0 (by decide)
    have e1 := h1 (by decide)
    change (case_LDI s a).map observable = (case_LDI s b).map observable
    simp only [case_LDI, running, write_dst, pc_offset_index, base_offset_index, mem_read,
      mem_write, e0, e1]
    split
    · simp only [Option.some_bind]
      split <;> rfl
    · rfl
  · have e0 := h0 (by decide)
    have e1 := h1 (by decide)
    change (case_STI s a).map observable = (case_STI s b).map observable
    simp only [case_STI, running, write_dst, pc_offset_index, base_offset_index, mem_read,
      mem_write, e0, e1]
    split
    · simp only [Option.some_bind]
      split <;> rfl
    · rfl
  · have e0 := h0 (by decide)
    change (case_JMP s a).map observable = (case_JMP s b).map observable
    simp only [case_JMP, running, write_dst, pc_offset_index, base_offset_index, mem_read,
      mem_write, e0]
    rfl
  · rfl
  · have e0 := h0 (by decide)
    have e1 := h1 (by decide)
    change (case_LEA s a).map observable = (case_LEA s b).map observable
    simp only [case_LEA, running, write_dst, pc_offset_index, base_offset_index, mem_read,
      mem_write, e0, e1]
    rfl
  · have e0 := h0 (by decide)
    change (case_TRAP s a).map observable = (case_TRAP s b).map observable
    simp only [case_TRAP, running, write_dst, pc_offset_index, base_offset_index, mem_read,
      mem_write, e0]
    repeat' split
    all_goals rfl

/-- The first `switch` writes every operand slot the second `switch` reads for
the same opcode: the decoded value of such a slot does not depend on what the
`arguments` array held before. -/
theorem decode_congr (instruction opcode : Nat) (r a b : Nat → Nat) (hlt : opcode < 16) :
    (reads_slot0 opcode →
      decode_operands instruction opcode r a 0 = decode_operands instruction opcode r b 0) ∧
    (reads_slot1 opcode →
      decode_operands instruction opcode r a 1 = decode_operands instruction opcode r b 1) ∧
    (reads_slot2 opcode →
      decode_operands instruction opcode r a 2 = decode_operands instruction opcode r b 2) := by
  interval_cases opcode
  · refine ⟨fun h => ?_, fun h => ?_, fun h => ?_⟩
    · rfl
    · rfl
    · rfl
  · refine ⟨fun h => ?_, fun h => ?_, fun h => ?_⟩
    · by_cases hb : get_bits_between instruction 5 5 ≠ 0 <;>
        simp [decode_operands, INSTR_BR, INSTR_ADD, INSTR_LD, INSTR_ST, INSTR_JSR, INSTR_AND, INSTR_LDR,
          INSTR_STR, INSTR_NOT, INSTR_LDI, INSTR_STI, INSTR_LEA, hb,
          store_apply]
    · by_cases hb : get_bits_between instruction 5 5 ≠ 0 <;>
        simp [decode_operands, INSTR_BR, INSTR_ADD, INSTR_LD, INSTR_ST, INSTR_JSR, INSTR_AND, INSTR_LDR,
          INSTR_STR, INSTR_NOT, INSTR_LDI, INSTR_STI, INSTR_LEA, hb,
          store_apply]
    · by_cases hb : get_bits_between instruction 5 5 ≠ 0 <;>
        simp [decode_operands, INSTR_BR, INSTR_ADD, INSTR_LD, INSTR_ST, INSTR_JSR, INSTR_AND, INSTR_LDR,
          INSTR_STR, INSTR_NOT, INSTR_LDI, INSTR_STI, INSTR_LEA, hb,
          store_apply]
  · refine ⟨fun h => ?_, fun h => ?_, fun h => ?_⟩
    · rfl
    · rfl
    · exact absurd h (by decide)
  · refine ⟨fun h => ?_, fun h => ?_, fun h => ?_⟩
    · rfl
    · rfl
    · exact absurd h (by decide)
  · refine ⟨fun h => ?_, fun h => ?_, fun h => ?_⟩
    · by_cases hb : get_bits_between instruction 11 11 ≠ 0 <;>
        simp [decode_operands, INSTR_BR, INSTR_ADD, INSTR_LD, INSTR_ST, INSTR_JSR, INSTR_AND, INSTR_LDR,
          INSTR_STR, INSTR_NOT, INSTR_LDI, INSTR_STI, INSTR_LEA, hb,
          store_apply]
    · exact absurd h (by decide)
    · exact absurd h (by decide)
  · refine ⟨fun h => ?_, fun h => ?_, fun h => ?_⟩
    · by_cases hb : get_bits_between instruction 5 5 ≠ 0 <;>
        simp [decode_operands, INSTR_BR, INSTR_ADD, INSTR_LD, INSTR_ST, INSTR_JSR, INSTR_AND, INSTR_LDR,
          INSTR_STR, INSTR_NOT, INSTR_LDI, INSTR_STI, INSTR_LEA, hb,
          store_apply]
    · by_cases hb : get_bits_between instruction 5 5 ≠ 0 <;>
        simp [decode_operands, INSTR_BR, INSTR_ADD, INSTR_LD, INSTR_ST, INSTR_JSR, INSTR_AND, INSTR_LDR,
          INSTR_STR, INSTR_NOT, INSTR_LDI, INSTR_STI, INSTR_LEA, hb,
          store_apply]
    · by_cases hb : get_bits_between instruction 5 5 ≠ 0 <;>
        simp [decode_operands, INSTR_BR, INSTR_ADD, INSTR_LD, INSTR_ST, INSTR_JSR, INSTR_AND, INSTR_LDR,
          INSTR_STR, INSTR_NOT, INSTR_LDI, INSTR_STI, INSTR_LEA, hb,
          store_apply]
  · refine ⟨fun h => ?_, fun h => ?_, fun h => ?_⟩
    · rfl
    · rfl
    · rfl
  · refine ⟨fun h => ?_, fun h => ?_, fun h => ?_⟩
    · rfl
    · rfl
    · rfl
  · refine ⟨fun h => ?_, fun h => ?_, fun h => ?_⟩
    · exact absurd h (by decide)
    · exact absurd h (by decide)
    · exact absurd h (by decide)
  · refine ⟨fun h => ?_, fun h => ?_, fun h => ?_⟩
    · by_cases hb : get_bits_between instruction 5 5 ≠ 0 <;>
        simp [decode_operands, INSTR_BR, INSTR_ADD, INSTR_LD, INSTR_ST, INSTR_JSR, INSTR_AND, INSTR_LDR,
          INSTR_STR, INSTR_NOT, INSTR_LDI, INSTR_STI, INSTR_LEA, hb,
          store_apply]
    · by_cases hb : get_bits_between instruction 5 5 ≠ 0 <;>
        simp [decode_operands, INSTR_BR, INSTR_ADD, INSTR_LD, INSTR_ST, INSTR_JSR, INSTR_AND, INSTR_LDR,
          INSTR_STR, INSTR_NOT, INSTR_LDI, INSTR_STI, INSTR_LEA, hb,
          store_apply]
    · exact absurd h (by decide)
  · refine ⟨fun h => ?_, fun h => ?_, fun h => ?_⟩
    · rfl
    · rfl
    · exact absurd h (by decide)
  · refine ⟨fun h => ?_, fun h => ?_, fun h => ?_⟩
    · rfl
    · rfl
    · exact absurd h (by decide)
  · refine ⟨fun h => ?_, fun h => ?_, fun h => ?_⟩
    · rfl
    · exact absurd h (by decide)
    · exact absurd h (by decide)
  · refine ⟨fun h => ?_, fun h => ?_, fun h => ?_⟩
    · exact absurd h (by decide)
    · exact absurd h (by decide)
    · exact absurd h (by decide)
  · refine ⟨fun h => ?_, fun h => ?_, fun h => ?_⟩
    · rfl
    · rfl
    · exact absurd h (by decide)
  · refine ⟨fun h => ?_, fun h => ?_, fun h => ?_⟩
    · rfl
    · exact absurd h (by decide)
    · exact absurd h (by decide)

/-- Two calls of `execute` that differ only in the initial contents of the
`arguments` array leave the same registers, memory, return value and output. -/
theorem execute_congr (instruction : Nat) (a b : Nat → Nat) (s : Machine) :
    (execute instruction a s).map observable = (execute instruction b s).map observable := by
  have hd := decode_congr instruction (get_bits_between instruction 15 12)
    (store s.registers R_PC ((s.registers R_PC + 1) % 65536)) a b (opcode_lt instruction)
  unfold execute
  exact perform_congr instruction _ _ _ _ (opcode_lt instruction) hd.1 hd.2.1 hd.2.2

/-- Arithmetic reading of `switch_endianness` on a 16-bit word. -/
theorem switch_endianness_eq (x : Nat) (hx : x < 65536) :
    switch_endianness x = x % 256 * 256 + x / 256 := by
  have hq : x / 256 < 2 ^ 8 := by
    norm_num
    omega
  have hor : 2 ^ 8 * x + x / 256 = 2 ^ 8 * x ||| x / 256 := Nat.mul_add_lt_is_or hq x
  unfold switch_endianness WORD_SIZE
  norm_num [Nat.shiftLeft_eq, Nat.shiftRight_eq_div_pow] at hor ⊢
  rw [Nat.mul_comm x 256, ← hor]
  omega

/-- Swapping the bytes of a 16-bit word twice gives the word back. -/
theorem switch_endianness_involutive (x : Nat) (hx : x < 65536) :
    switch_endianness (switch_endianness x) = x := by
  have h1 := switch_endianness_eq x hx
  have h2 := switch_endianness_eq (switch_endianness x) (switch_endianness_lt x)
  omega

/-- What `case INSTR_STR` does when its subscript is inside `memory`. -/
theorem store_register_result (instruction : Nat) (arguments : Nat → Nat) (s : Machine)
    (hop : get_bits_between instruction 15 12 = INSTR_STR)
    (hr : s.registers (get_bits_between instruction 8 6)
      + sign_extend (get_bits_between instruction 5 0) 6 < MAX_ADDRESSABLE) :
    ∃ o, execute instruction arguments s = some o ∧
      o.machine.memory = store s.memory
        (s.registers (get_bits_between instruction 8 6)
          + sign_extend (get_bits_between instruction 5 0) 6)
        (switch_endianness (s.registers (get_bits_between instruction 11 9))) ∧
      ∀ i, i ≠ R_PC → o.machine.registers i = s.registers i := by
  have hd : get_bits_between instruction 11 9 ≠ R_PC :=
    Nat.ne_of_lt (get_bits_between_three_lt instruction 9)
  have hb : get_bits_between instruction 8 6 ≠ R_PC :=
    Nat.ne_of_lt (get_bits_between_three_lt instruction 6)
  unfold execute
  rw [hop]
  change ∃ o, case_STR _ _ = some o ∧ _
  have a0 : decode_operands instruction INSTR_STR
      (store s.registers R_PC ((s.registers R_PC + 1) % 65536)) arguments 0
        = get_bits_between instruction 11 9 := rfl
  have a1 : decode_operands instruction INSTR_STR
      (store s.registers R_PC ((s.registers R_PC + 1) % 65536)) arguments 1
        = get_bits_between instruction 8 6 := rfl
  have a2 : decode_operands instruction INSTR_STR
      (store s.registers R_PC ((s.registers R_PC + 1) % 65536)) arguments 2
        = get_bits_between instruction 5 0 := rfl
  unfold case_STR base_offset_index
  dsimp only
  rw [a0, a1, a2, incremented_other _ _ _ hd, incremented_other _ _ _ hb]
  unfold mem_write
  rw [if_pos hr, Option.some_bind]
  exact ⟨_, rfl, rfl, fun i hi => incremented_other _ _ _ hi⟩

/-- What `case INSTR_LDR` does when its subscript is inside `memory`. -/
theorem load_register_result (instruction : Nat) (arguments : Nat → Nat) (s : Machine)
    (hop : get_bits_between instruction 15 12 = INSTR_LDR)
    (hr : s.registers (get_bits_between instruction 8 6)
      + sign_extend (get_bits_between instruction 5 0) 6 < MAX_ADDRESSABLE) :
    ∃ o, execute instruction arguments s = some o ∧
      o.machine.registers (get_bits_between instruction 11 9) =
        switch_endianness (s.memory (s.registers (get_bits_between instruction 8 6)
          + sign_extend (get_bits_between instruction 5 0) 6)) := by
  have hd : get_bits_between instruction 11 9 < 8 := get_bits_between_three_lt instruction 9
  have hb : get_bits_between instruction 8 6 ≠ R_PC :=
    Nat.ne_of_lt (get_bits_between_three_lt instruction 6)
  unfold execute
  rw [hop]
  change ∃ o, case_LDR _ _ = some o ∧ _
  have a0 : decode_operands instruction INSTR_LDR
      (store s.registers R_PC ((s.registers R_PC + 1) % 65536)) arguments 0
        = get_bits_between instruction 11 9 := rfl
  have a1 : decode_operands instruction INSTR_LDR
      (store s.registers R_PC ((s.registers R_PC + 1) % 65536)) arguments 1
        = get_bits_between instruction 8 6 := rfl
  have a2 : decode_operands instruction INSTR_LDR
      (store s.registers R_PC ((s.registers R_PC + 1) % 65536)) arguments 2
        = get_bits_between instruction 5 0 := rfl
  have hi : base_offset_index (store s.registers R_PC ((s.registers R_PC + 1) % 65536))
      (decode_operands instruction INSTR_LDR
        (store s.registers R_PC ((s.registers R_PC + 1) % 65536)) arguments)
      = s.registers (get_bits_between instruction 8 6)
        + sign_extend (get_bits_between instruction 5 0) 6 := by
    unfold base_offset_index
    rw [a1, a2, incremented_other _ _ _ hb]
  unfold case_LDR
  dsimp only
  rw [hi]
  unfold mem_read
  rw [if_pos hr, Option.some_bind]
  refine ⟨_, rfl, ?_⟩
  show write_dst _ _ _ (get_bits_between instruction 11 9) = _
  rw [← a0, write_dst_dst _ _ _ (by rw [a0]; exact hd)]
  exact Nat.mod_eq_of_lt (switch_endianness_lt _)

/-- The value `execute` returns where it has a result, that is for every state
and every word whose memory subscripts are inside `memory`: 0 exactly when the
opcode is 1111 and the vector is 0x25, and 1 otherwise. -/
theorem return_value_in_range (instruction : Nat) (arguments : Nat → Nat) (s : Machine)
    (hr : accesses_in_range instruction s) :
    ∃ o, execute instruction arguments s = some o ∧
      (o.ret = 0 ↔ (get_bits_between instruction 15 12 = INSTR_TRAP ∧
        get_bits_between instruction 7 0 = TRAP_HALT)) ∧
      (¬ (get_bits_between instruction 15 12 = INSTR_TRAP ∧
        get_bits_between instruction 7 0 = TRAP_HALT) → o.ret = 1) := by
  obtain ⟨o, ho⟩ := execute_defined instruction arguments s hr
  have hret := perform_ret _ _ _ _ o (opcode_lt instruction) ho
  have e : ∀ r, get_bits_between instruction 15 12 = INSTR_TRAP →
      decode_operands instruction (get_bits_between instruction 15 12) r arguments 0
        = get_bits_between instruction 7 0 := by
    intro r h
    rw [h]
    rfl
  refine ⟨o, ho, ?_, ?_⟩
  · constructor
    · intro h0
      rw [h0] at hret
      by_cases hc : get_bits_between instruction 15 12 = INSTR_TRAP ∧
          decode_operands instruction (get_bits_between instruction 15 12)
            (store s.registers R_PC ((s.registers R_PC + 1) % 65536)) arguments 0 = TRAP_HALT
      · exact ⟨hc.1, (e _ hc.1) ▸ hc.2⟩
      · rw [if_neg hc] at hret
        exact absurd hret (by decide)
    · rintro ⟨h1, h2⟩
      rw [hret, if_pos ⟨h1, (e _ h1).trans h2⟩]
  · intro hn
    rw [hret, if_neg]
    rintro ⟨h1, h2⟩
    exact hn ⟨h1, (e _ h1) ▸ h2⟩

/-! ## Claims -/

/-- C1 (add): evaluation at `ADD R0, R0, #-1` (word 0x103F) with R0 = 0.  The
immediate is sign-extended while decoding (to 0xFFFF) and once more in the
`INSTR_ADD` case (to 0xFFDF), so R0 becomes 0xFFDF = -33 and not
(0 + -1) mod 2^16 = 0xFFFF; the PC is incremented and 1 is returned.  In
general, for every state and every add word, the destination receives
src1 + src2 in register mode and src1 + the twice-extended immediate in
immediate mode, which is the two's-complement value for 0..15 and 32 less for
the negative immediates. -/
theorem add_negative_immediate_extended_twice :
    at_origin.wf ∧
    get_bits_between 0x103F 15 12 = INSTR_ADD ∧
    get_bits_between 0x103F 11 9 = R_0 ∧ get_bits_between 0x103F 8 6 = R_0 ∧
    get_bits_between 0x103F 5 5 = 1 ∧
    sign_extend (get_bits_between 0x103F 4 0) 5 = 0xFFFF ∧
    sign_extend (sign_extend (get_bits_between 0x103F 4 0) 5) 5 = 0xFFDF ∧
    (∃ o, execute 0x103F zeroed at_origin = some o ∧
      o.machine.registers R_0 = 0xFFDF ∧
      o.machine.registers R_0 ≠ to_u16 ((at_origin.registers R_0 : Int) + (-1)) ∧
      o.machine.registers R_PC = 0x3001 ∧ o.ret = 1) ∧
    (∀ (instruction : Nat) (arguments : Nat → Nat) (s : Machine),
      get_bits_between instruction 15 12 = INSTR_ADD →
      ∃ o, execute instruction arguments s = some o ∧
        o.machine.registers (get_bits_between instruction 11 9) =
          (if get_bits_between instruction 5 5 ≠ 0 then
            (s.registers (get_bits_between instruction 8 6)
              + sign_extend (sign_extend (get_bits_between instruction 4 0) 5) 5) % 65536
          else
            (s.registers (get_bits_between instruction 8 6)
              + s.registers (get_bits_between instruction 2 0)) % 65536) ∧
        o.machine.registers R_PC = (s.registers R_PC + 1) % 65536 ∧ o.ret = 1) ∧
    (∀ v, v < 32 →
      sign_extend v 5 = (if v < 16 then v else 65504 + v) ∧
      sign_extend (sign_extend v 5) 5 = (if v < 16 then v else 65472 + v)) :=
  ⟨at_origin_wf, rfl, rfl, rfl, rfl, rfl, rfl, ⟨_, rfl, rfl, by decide, rfl, rfl⟩,
    add_result, sign_extend_twice⟩

/-- C2 (condition codes): for every register array and every value `v`,
`update_condition_code v` leaves PSR bits [2:0] equal to 2 when `v = 0` and to
1 otherwise, so never 4; at `v = 0x8000` the flags are 1, and `NOT R0, R0`
(word 0x903F) with R0 = 0 writes 0xFFFF and leaves the positive flag. -/
theorem update_condition_code_never_negative :
    (∀ (registers : Nat → Nat) (v : Nat),
      get_bits_between (update_condition_code registers v R_PSR) 2 0
        = if v = 0 then COND_ZERO else COND_POS) ∧
    get_bits_between (update_condition_code at_origin.registers 0x8000 R_PSR) 2 0 = COND_POS ∧
    ∃ o, execute 0x903F zeroed at_origin = some o ∧
      o.machine.registers R_0 = 0xFFFF ∧
      get_bits_between (o.machine.registers R_PSR) 2 0 = COND_POS ∧
      get_bits_between (o.machine.registers R_PSR) 2 0 ≠ COND_NEG :=
  ⟨update_condition_code_flags, rfl, _, rfl, rfl, rfl, by decide⟩

/-- C3 (memory subscripts): evaluation at `LD R0, #-1` (word 0x21FF) with
PC = 0x3000.  The subscript is the untruncated sum 0x3001 + 0xFFFF = 0x13000,
outside `memory`, and not (0x3000 + 1 + 0xFFFF) mod 2^16 = 0x3000; likewise
`LDR R0, R1, #-1` (word 0x607F) with R1 = 0x4000 subscripts 0x13FFF. -/
theorem load_negative_offset_subscript_out_of_range :
    at_origin.wf ∧
    get_bits_between 0x21FF 15 12 = INSTR_LD ∧
    sign_extend (get_bits_between 0x21FF 8 0) 9 = 0xFFFF ∧
    pc_offset_index (store at_origin.registers R_PC 0x3001)
      (decode_operands 0x21FF INSTR_LD (store at_origin.registers R_PC 0x3001) zeroed)
        = 0x13000 ∧
    ¬ (0x13000 < MAX_ADDRESSABLE) ∧
    (at_origin.registers R_PC + 1 + sign_extend (get_bits_between 0x21FF 8 0) 9) % 65536
      = 0x3000 ∧
    execute 0x21FF zeroed at_origin = none ∧
    get_bits_between 0x607F 15 12 = INSTR_LDR ∧
    base_offset_index (store (store at_origin.registers R_1 0x4000) R_PC 0x3001)
      (decode_operands 0x607F INSTR_LDR
        (store (store at_origin.registers R_1 0x4000) R_PC 0x3001) zeroed) = 0x13FFF ∧
    execute 0x607F zeroed ⟨store at_origin.registers R_1 0x4000, zeroed⟩ = none :=
  ⟨at_origin_wf, rfl, rfl, rfl, by decide, rfl, rfl, rfl, rfl, rfl⟩

/-- C4 (branch): for every state and every word with opcode 0000, `execute`
returns 1; the PC becomes (PC + 1 + sign_extend(bits [8:0], 9)) mod 2^16 when
bits [11:9] AND the old PSR bits [2:0] is non-zero and (PC + 1) mod 2^16
otherwise; every other register (R0..R7 and the PSR) and memory are unchanged. -/
theorem branch_semantics (instruction : Nat) (arguments : Nat → Nat) (s : Machine)
    (hop : get_bits_between instruction 15 12 = INSTR_BR) :
    ∃ o, execute instruction arguments s = some o ∧
      o.machine.registers R_PC =
        (if get_bits_between instruction 11 9 &&& get_bits_between (s.registers R_PSR) 2 0 ≠ 0
          then (s.registers R_PC + 1 + sign_extend (get_bits_between instruction 8 0) 9) % 65536
          else (s.registers R_PC + 1) % 65536) ∧
      (∀ i, i ≠ R_PC → o.machine.registers i = s.registers i) ∧
      o.machine.memory = s.memory ∧ o.ret = 1 := by
  unfold execute
  rw [hop]
  change ∃ o, case_BR _ _ = some o ∧ _
  have a0 : decode_operands instruction INSTR_BR
      (store s.registers R_PC ((s.registers R_PC + 1) % 65536)) arguments 0
        = get_bits_between instruction 11 9 := rfl
  have a1 : decode_operands instruction INSTR_BR
      (store s.registers R_PC ((s.registers R_PC + 1) % 65536)) arguments 1
        = get_bits_between instruction 8 0 := rfl
  have a2 : decode_operands instruction INSTR_BR
      (store s.registers R_PC ((s.registers R_PC + 1) % 65536)) arguments 2
        = get_bits_between (s.registers R_PSR) 2 0 := rfl
  unfold case_BR
  rw [a0, a1, a2]
  by_cases hc : get_bits_between instruction 11 9 &&& get_bits_between (s.registers R_PSR) 2 0
      ≠ 0
  · rw [if_pos hc, if_pos hc]
    refine ⟨_, rfl, ?_, ?_, rfl, rfl⟩
    · simp [store_apply]
    · intro i hi
      simp [store_apply, hi]
  · rw [if_neg hc, if_neg hc]
    refine ⟨_, rfl, ?_, ?_, rfl, rfl⟩
    · simp [store_apply]
    · intro i hi
      simp [store_apply, hi]

/-- Witness for C4: `BRz #1` (word 0x0401) in the state after loading, where
the zero flag is set. -/
theorem branch_semantics_witness :
    get_bits_between 0x0401 15 12 = INSTR_BR ∧
    ∃ o, execute 0x0401 zeroed at_origin = some o ∧
      o.machine.registers R_PC =
        (if get_bits_between 0x0401 11 9 &&& get_bits_between (at_origin.registers R_PSR) 2 0
            ≠ 0
          then (at_origin.registers R_PC + 1 + sign_extend (get_bits_between 0x0401 8 0) 9)
            % 65536
          else (at_origin.registers R_PC + 1) % 65536) ∧
      (∀ i, i ≠ R_PC → o.machine.registers i = at_origin.registers i) ∧
      o.machine.memory = at_origin.memory ∧ o.ret = 1 :=
  ⟨rfl, branch_semantics 0x0401 zeroed at_origin rfl⟩

/-- C5 (load-indirect): evaluation at `LDI R0, #-1` (word 0xA1FF) with
PC = 0x3000, where the word read at (0x3000 + 1 - 1) mod 2^16 = 0x3000 is the
pointer 0x4000 and the word read at 0x4000 is 0x1234.  The first subscript is
0x3001 + 0xFFFF = 0x13000, outside `memory`, so R0 does not receive 0x1234;
with the offset +1 (word 0xA001, pointer at 0x3002) it does.  In general,
whenever the untruncated sum is inside `memory`, the destination receives the
word read through the pointer read there. -/
theorem load_indirect_negative_offset_out_of_range :
    indirect_state.wf ∧
    get_bits_between 0xA1FF 15 12 = INSTR_LDI ∧
    (indirect_state.registers R_PC + 1 + sign_extend (get_bits_between 0xA1FF 8 0) 9) % 65536
      = 0x3000 ∧
    (mem_read indirect_state.memory 0x3000).map switch_endianness = some 0x4000 ∧
    (mem_read indirect_state.memory 0x4000).map switch_endianness = some 0x1234 ∧
    pc_offset_index (store indirect_state.registers R_PC 0x3001)
      (decode_operands 0xA1FF INSTR_LDI (store indirect_state.registers R_PC 0x3001) zeroed)
        = 0x13000 ∧
    mem_read indirect_state.memory 0x13000 = none ∧
    execute 0xA1FF zeroed indirect_state = none ∧
    (¬ ∃ o, execute 0xA1FF zeroed indirect_state = some o ∧
      o.machine.registers R_0 = 0x1234) ∧
    (mem_read indirect_state.memory 0x3002).map switch_endianness = some 0x4000 ∧
    (∃ o, execute 0xA001 zeroed indirect_state = some o ∧
      o.machine.registers R_0 = 0x1234) ∧
    (∀ (instruction : Nat) (arguments : Nat → Nat) (s : Machine),
      get_bits_between instruction 15 12 = INSTR_LDI →
      (s.registers R_PC + 1) % 65536 + sign_extend (get_bits_between instruction 8 0) 9
        < MAX_ADDRESSABLE →
      ∃ o, execute instruction arguments s = some o ∧
        o.machine.registers (get_bits_between instruction 11 9) =
          switch_endianness (s.memory (switch_endianness (s.memory
            ((s.registers R_PC + 1) % 65536
              + sign_extend (get_bits_between instruction 8 0) 9))))) :=
  ⟨indirect_state_wf, rfl, rfl, rfl, rfl, rfl, rfl, rfl, by
    rintro ⟨o, h, -⟩
    exact Option.noConfusion
      ((show execute 0xA1FF zeroed indirect_state = none from rfl).symm.trans h),
    rfl, ⟨_, rfl, rfl⟩, load_indirect_result⟩

/-- C6, as stated, fails: the reserved opcode (word 0xD000) and a trap with the
unknown vector 0xFF (word 0xF0FF) both make `execute` return 1 (Running),
printing nothing. -/
theorem illegal_opcode_reports_running :
    get_bits_between 0xD000 15 12 = INSTR_ILL ∧
    (∃ o, execute 0xD000 zeroed at_origin = some o ∧ o.ret = 1 ∧ o.output = []) ∧
    get_bits_between 0xF0FF 15 12 = INSTR_TRAP ∧ get_bits_between 0xF0FF 7 0 = 0xFF ∧
    (∃ o, execute 0xF0FF zeroed at_origin = some o ∧ o.ret = 1 ∧ o.output = []) :=
  ⟨rfl, ⟨_, rfl, rfl, rfl⟩, rfl, rfl, ⟨_, rfl, rfl, rfl⟩⟩

/-- C6, amended: for the reserved opcode 1101 and for a trap whose vector is
outside 0x20..0x25, `execute` raises no fault: it returns 1 and prints nothing,
memory and every register other than the PC are unchanged and the PC is
incremented by one; the `TRAP_HALT` word returns 0, a different value. -/
theorem invalid_instruction_keeps_running (instruction halt : Nat)
    (arguments arguments2 : Nat → Nat) (s s2 : Machine)
    (hinv : get_bits_between instruction 15 12 = INSTR_ILL ∨
      (get_bits_between instruction 15 12 = INSTR_TRAP ∧
        (get_bits_between instruction 7 0 < TRAP_GETC ∨
          TRAP_HALT < get_bits_between instruction 7 0)))
    (hhalt : get_bits_between halt 15 12 = INSTR_TRAP ∧
      get_bits_between halt 7 0 = TRAP_HALT) :
    ∃ o oh, execute instruction arguments s = some o ∧
      execute halt arguments2 s2 = some oh ∧
      o.ret = 1 ∧ o.output = [] ∧ o.machine.memory = s.memory ∧
      o.machine.registers R_PC = (s.registers R_PC + 1) % 65536 ∧
      (∀ i, i ≠ R_PC → o.machine.registers i = s.registers i) ∧
      oh.ret = 0 ∧ o.ret ≠ oh.ret := by
  have hh : ∃ oh, execute halt arguments2 s2 = some oh ∧ oh.ret = 0 := by
    unfold execute
    rw [hhalt.1]
    change ∃ oh, case_TRAP _ _ = some oh ∧ _
    have e : decode_operands halt INSTR_TRAP
        (store s2.registers R_PC ((s2.registers R_PC + 1) % 65536)) arguments2 0
          = TRAP_HALT := hhalt.2
    unfold case_TRAP
    rw [e]
    exact ⟨_, rfl, rfl⟩
  obtain ⟨oh, hoh, hret⟩ := hh
  have hframe : ∀ a : Nat → Nat,
      ∃ o, running (store s.registers R_PC ((s.registers R_PC + 1) % 65536)) s.memory a
          = some o ∧
        o.ret = 1 ∧ o.output = [] ∧ o.machine.memory = s.memory ∧
        o.machine.registers R_PC = (s.registers R_PC + 1) % 65536 ∧
        (∀ i, i ≠ R_PC → o.machine.registers i = s.registers i) := by
    intro a
    refine ⟨_, rfl, rfl, rfl, rfl, ?_, ?_⟩
    · simp [store_apply]
    · intro i hi
      simp [store_apply, hi]
  have ho : ∃ o, execute instruction arguments s = some o ∧
      o.ret = 1 ∧ o.output = [] ∧ o.machine.memory = s.memory ∧
      o.machine.registers R_PC = (s.registers R_PC + 1) % 65536 ∧
      (∀ i, i ≠ R_PC → o.machine.registers i = s.registers i) := by
    unfold execute
    rcases hinv with hill | ⟨htrap, hvec⟩
    · rw [hill]
      exact hframe _
    · rw [htrap]
      change ∃ o, case_TRAP _ _ = some o ∧ _
      have e : decode_operands instruction INSTR_TRAP
          (store s.registers R_PC ((s.registers R_PC + 1) % 65536)) arguments 0
            = get_bits_between instruction 7 0 := rfl
      unfold case_TRAP
      rw [e]
      have n1 : get_bits_between instruction 7 0 ≠ TRAP_PUTS := by
        simp only [TRAP_GETC, TRAP_HALT, TRAP_PUTS] at hvec ⊢
        omega
      have n2 : get_bits_between instruction 7 0 ≠ TRAP_GETC := by
        simp only [TRAP_GETC, TRAP_HALT] at hvec ⊢
        omega
      have n3 : get_bits_between instruction 7 0 ≠ TRAP_HALT := by
        simp only [TRAP_GETC, TRAP_HALT] at hvec ⊢
        omega
      rw [if_neg n1, if_neg n2, if_neg n3]
      exact hframe _
  obtain ⟨o, h1, h2, h3, h4, h5, h6⟩ := ho
  exact ⟨o, oh, h1, hoh, h2, h3, h4, h5, h6, hret, by rw [h2, hret]; decide⟩

/-- Witness for C6: the reserved word 0xD000 against the halt word 0xF025. -/
theorem invalid_instruction_keeps_running_witness :
    (get_bits_between 0xD000 15 12 = INSTR_ILL ∨
      (get_bits_between 0xD000 15 12 = INSTR_TRAP ∧
        (get_bits_between 0xD000 7 0 < TRAP_GETC ∨ TRAP_HALT < get_bits_between 0xD000 7 0))) ∧
    (get_bits_between 0xF025 15 12 = INSTR_TRAP ∧ get_bits_between 0xF025 7 0 = TRAP_HALT) ∧
    ∃ o oh, execute 0xD000 zeroed at_origin = some o ∧
      execute 0xF025 zeroed at_origin = some oh ∧
      o.ret = 1 ∧ o.output = [] ∧ o.machine.memory = at_origin.memory ∧
      o.machine.registers R_PC = (at_origin.registers R_PC + 1) % 65536 ∧
      (∀ i, i ≠ R_PC → o.machine.registers i = at_origin.registers i) ∧
      oh.ret = 0 ∧ o.ret ≠ oh.ret :=
  ⟨Or.inl rfl, ⟨rfl, rfl⟩,
    invalid_instruction_keeps_running 0xD000 0xF025 zeroed zeroed at_origin at_origin
      (Or.inl rfl) ⟨rfl, rfl⟩⟩

/-- C7 (return value): evaluation at `ST R0, #-1` (word 0x31FF) with
PC = 0x3000.  The word is not the halt trap, yet `execute` does not return 1:
its subscript 0x3001 + 0xFFFF = 0x13000 is outside `memory` and the call has
no result.  The halt trap (word 0xF025) returns 0, and in general, for every
state and every word whose subscripts are inside `memory`, `execute` returns 0
exactly for the halt trap and 1 otherwise. -/
theorem store_negative_offset_returns_nothing :
    at_origin.wf ∧
    get_bits_between 0x31FF 15 12 = INSTR_ST ∧
    ¬ (get_bits_between 0x31FF 15 12 = INSTR_TRAP ∧ get_bits_between 0x31FF 7 0 = TRAP_HALT) ∧
    pc_offset_index (store at_origin.registers R_PC 0x3001)
      (decode_operands 0x31FF INSTR_ST (store at_origin.registers R_PC 0x3001) zeroed)
        = 0x13000 ∧
    ¬ (0x13000 < MAX_ADDRESSABLE) ∧
    execute 0x31FF zeroed at_origin = none ∧
    (¬ ∃ o, execute 0x31FF zeroed at_origin = some o ∧ o.ret = 1) ∧
    (∃ o, execute 0xF025 zeroed at_origin = some o ∧ o.ret = 0) ∧
    (∀ (instruction : Nat) (arguments : Nat → Nat) (s : Machine),
      accesses_in_range instruction s →
      ∃ o, execute instruction arguments s = some o ∧
        (o.ret = 0 ↔ (get_bits_between instruction 15 12 = INSTR_TRAP ∧
          get_bits_between instruction 7 0 = TRAP_HALT)) ∧
        (¬ (get_bits_between instruction 15 12 = INSTR_TRAP ∧
          get_bits_between instruction 7 0 = TRAP_HALT) → o.ret = 1)) :=
  ⟨at_origin_wf, rfl, by decide, rfl, by decide, rfl, by
    rintro ⟨o, h, -⟩
    exact Option.noConfusion
      ((show execute 0x31FF zeroed at_origin = none from rfl).symm.trans h),
    ⟨_, rfl, rfl⟩, return_value_in_range⟩

/-- C8 (single HALT image): the image file with bytes 30 00 F0 25 starts the
machine with PC = 0x3000, PSR = zero flag, R0..R7 = 0 and the word 0x25F0 (the
halt trap 0xF025 in external byte order) at address 0x3000, all other memory
zero; from there the loop, given any fuel of at least one iteration and any
initial `arguments`, stops after exactly one `execute` call with PC = 0x3001. -/
theorem halt_image_stops_after_one_cycle (n : Nat) (arguments : Nat → Nat) :
    ∃ s0 h, startup [0x30, 0x00, 0xF0, 0x25] = some s0 ∧
      s0.registers R_PC = 0x3000 ∧ s0.registers R_PSR = COND_ZERO ∧
      (∀ i, i < 8 → s0.registers i = 0) ∧
      s0.memory 0x3000 = 0x25F0 ∧ switch_endianness (s0.memory 0x3000) = 0xF025 ∧
      (∀ a, a ≠ 0x3000 → s0.memory a = 0) ∧
      fetch_execute_loop (n + 1) s0 arguments [] 0 = some h ∧
      h.cycles = 1 ∧ h.machine.registers R_PC = 0x3001 := by
  refine ⟨_, _, rfl, rfl, rfl, ?_, rfl, rfl, ?_, rfl, rfl, rfl⟩
  · intro i hi
    interval_cases i <;> rfl
  · intro a ha
    show (if _ then _ else _) = 0
    have e1 : switch_endianness (word_of_bytes 48 0) = 12288 := rfl
    have e2 : (List.take (END_OF_USER_SPACE - 12288) (words_of_bytes [240, 37])).length = 1 :=
      rfl
    rw [e1, e2, if_neg (by omega)]

/-- C9 (immediate against register mode): with R2 = 0xFFFF, the sign extension
of the immediate -1, `ADD R0, R1, #-1` (word 0x107F) and `ADD R0, R1, R2`
(word 0x1042) from the same state with R1 = 1 leave 0xFFE0 and 0 in R0, with
the positive and the zero flag; `AND R0, R1, #-1` (word 0x507F) and
`AND R0, R1, R2` (word 0x5042) with R1 = 0x0020 leave 0 and 0x0020. -/
theorem immediate_and_register_mode_differ :
    add_operands_state.wf ∧ and_operands_state.wf ∧
    sign_extend 0x1F 5 = 0xFFFF ∧ add_operands_state.registers R_2 = 0xFFFF ∧
    get_bits_between 0x107F 15 12 = INSTR_ADD ∧ get_bits_between 0x107F 5 5 = 1 ∧
    get_bits_between 0x107F 4 0 = 0x1F ∧
    get_bits_between 0x1042 15 12 = INSTR_ADD ∧ get_bits_between 0x1042 5 5 = 0 ∧
    get_bits_between 0x1042 2 0 = R_2 ∧
    (∃ oi og, execute 0x107F zeroed add_operands_state = some oi ∧
      execute 0x1042 zeroed add_operands_state = some og ∧
      oi.machine.registers R_0 = 0xFFE0 ∧ og.machine.registers R_0 = 0 ∧
      get_bits_between (oi.machine.registers R_PSR) 2 0 = COND_POS ∧
      get_bits_between (og.machine.registers R_PSR) 2 0 = COND_ZERO) ∧
    and_operands_state.registers R_2 = 0xFFFF ∧
    get_bits_between 0x507F 15 12 = INSTR_AND ∧ get_bits_between 0x5042 15 12 = INSTR_AND ∧
    (∃ oi og, execute 0x507F zeroed and_operands_state = some oi ∧
      execute 0x5042 zeroed and_operands_state = some og ∧
      oi.machine.registers R_0 = 0 ∧ og.machine.registers R_0 = 0x0020 ∧
      get_bits_between (oi.machine.registers R_PSR) 2 0 = COND_ZERO ∧
      get_bits_between (og.machine.registers R_PSR) 2 0 = COND_POS) :=
  ⟨add_operands_state_wf, and_operands_state_wf,
    rfl, rfl, rfl, rfl, rfl, rfl, rfl, rfl, ⟨_, _, rfl, rfl, rfl, rfl, rfl, rfl⟩,
    rfl, rfl, rfl, ⟨_, _, rfl, rfl, rfl, rfl, rfl, rfl⟩⟩

/-- C10 (load-effective-address): for every state and every word with opcode
1110, `execute` returns 1, the destination register (bits [11:9]) holds
(PC + 1 + sign_extend(bits [8:0], 9)) mod 2^16, computed from the incremented
PC, and the PC is (PC + 1) mod 2^16. -/
theorem lea_semantics (instruction : Nat) (arguments : Nat → Nat) (s : Machine)
    (hop : get_bits_between instruction 15 12 = INSTR_LEA) :
    ∃ o, execute instruction arguments s = some o ∧
      o.machine.registers (get_bits_between instruction 11 9) =
        (s.registers R_PC + 1 + sign_extend (get_bits_between instruction 8 0) 9) % 65536 ∧
      o.machine.registers R_PC = (s.registers R_PC + 1) % 65536 ∧ o.ret = 1 := by
  have hd : get_bits_between instruction 11 9 < 8 := get_bits_between_three_lt instruction 9
  unfold execute
  rw [hop]
  change ∃ o, case_LEA _ _ = some o ∧ _
  have a0 : decode_operands instruction INSTR_LEA
      (store s.registers R_PC ((s.registers R_PC + 1) % 65536)) arguments 0
        = get_bits_between instruction 11 9 := rfl
  have a1 : decode_operands instruction INSTR_LEA
      (store s.registers R_PC ((s.registers R_PC + 1) % 65536)) arguments 1
        = get_bits_between instruction 8 0 := rfl
  refine ⟨_, rfl, ?_, ?_, rfl⟩
  · show write_dst _ _ _ (get_bits_between instruction 11 9) = _
    rw [← a0, write_dst_dst _ _ _ (by rw [a0]; exact hd), a1]
    simp [store_apply]
  · show write_dst _ _ _ R_PC = _
    rw [write_dst_other _ _ _ _ (by rw [a0]; simp only [R_PC]; omega) (by decide)]
    simp [store_apply]

/-- Witness for C10: `LEA R0, #-1` (word 0xE1FF) with PC = 0x3000. -/
theorem lea_semantics_witness :
    get_bits_between 0xE1FF 15 12 = INSTR_LEA ∧
    ∃ o, execute 0xE1FF zeroed at_origin = some o ∧
      o.machine.registers (get_bits_between 0xE1FF 11 9) =
        (at_origin.registers R_PC + 1 + sign_extend (get_bits_between 0xE1FF 8 0) 9) % 65536 ∧
      o.machine.registers R_PC = (at_origin.registers R_PC + 1) % 65536 ∧ o.ret = 1 :=
  ⟨rfl, lea_semantics 0xE1FF zeroed at_origin rfl⟩

/-- C14 (sign extension): for every value v and every width n with
3 <= n <= 11, `sign_extend (get_bits_between v (n-1) 0) n` is the 16-bit
encoding of the signed integer held in the low n bits of v: its low n bits are
those of v and each of its bits n..15 equals bit n-1 of v. -/
theorem sign_extend_twos_complement (v n : Nat) (hn3 : 3 ≤ n) (hn11 : n ≤ 11) :
    sign_extend (get_bits_between v (n - 1) 0) n = to_u16 (twos_complement_value v n) ∧
    sign_extend (get_bits_between v (n - 1) 0) n < 65536 ∧
    sign_extend (get_bits_between v (n - 1) 0) n % 2 ^ n = v % 2 ^ n ∧
    ∀ i, n ≤ i → i ≤ 15 →
      (sign_extend (get_bits_between v (n - 1) 0) n).testBit i = v.testBit (n - 1) := by
  obtain ⟨k, rfl⟩ : ∃ k, n = k + 1 := ⟨n - 1, by omega⟩
  have hf : get_bits_between v (k + 1 - 1) 0 = v % 2 ^ (k + 1) := by
    rw [get_bits_between_eq v (k + 1 - 1) 0 (by omega)]
    rw [Nat.add_sub_cancel, Nat.pow_zero, Nat.div_one]
  have hlt : v % 2 ^ (k + 1) < 2 ^ (k + 1) := Nat.mod_lt _ (Nat.two_pow_pos _)
  have hs : 2 ^ (k + 1) = 2 * 2 ^ k := by rw [Nat.pow_succ]; omega
  have hle : 2 ^ (k + 1) ≤ 2 ^ 11 := Nat.pow_le_pow_right (by decide) hn11
  have h11 : (2 : Nat) ^ 11 = 2048 := by norm_num
  have hpos : 0 < 2 ^ k := Nat.two_pow_pos k
  have hdvd : 65536 = 2 ^ (k + 1) * 2 ^ (15 - k) := by
    rw [← Nat.pow_add]
    have : k + 1 + (15 - k) = 16 := by omega
    rw [this]
  have hq : 0 < 2 ^ (15 - k) := Nat.two_pow_pos _
  have hbit : v.testBit k = decide (2 ^ k ≤ v % 2 ^ (k + 1)) := by
    rw [← testBit_top _ k hlt, Nat.testBit_mod_two_pow]
    simp
  rw [hf, sign_extend_eq (v % 2 ^ (k + 1)) (k + 1) (by omega) (by omega) hlt]
  simp only [Nat.add_sub_cancel]
  unfold twos_complement_value to_u16
  simp only [Nat.add_sub_cancel]
  generalize v % 2 ^ (k + 1) = f at *
  by_cases hc : f < 2 ^ k
  · simp only [if_pos hc]
    refine ⟨by omega, by omega, Nat.mod_eq_of_lt hlt, ?_⟩
    intro i h1 h2
    have hi : 2 ^ (k + 1) ≤ 2 ^ i := Nat.pow_le_pow_right (by decide) h1
    rw [Nat.testBit_lt_two_pow (by omega), hbit]
    simp [hc]
  · simp only [if_neg hc]
    refine ⟨?_, by omega, ?_, ?_⟩
    · generalize 2 ^ (k + 1) = p at *
      omega
    · have e : f + 65536 - 2 ^ (k + 1) = f + 2 ^ (k + 1) * (2 ^ (15 - k) - 1) := by
        rw [Nat.mul_sub, Nat.mul_one, ← hdvd]
        omega
      rw [e, Nat.add_mul_mod_self_left]
      exact Nat.mod_eq_of_lt hlt
    · intro i h1 h2
      have hi : 2 ^ (k + 1) ≤ 2 ^ i := Nat.pow_le_pow_right (by decide) h1
      rw [hbit, Nat.testBit_to_div_mod]
      have hge : 2 ^ k ≤ f := by omega
      simp only [hge, decide_True, decide_eq_true_eq]
      generalize 2 ^ (k + 1) = p at *
      generalize 2 ^ k = h at *
      have h3 : 3 ≤ i := by omega
      interval_cases i <;> norm_num at hi ⊢ <;> omega

/-- Witness for C14: the 9-bit field of the word 0x21FF. -/
theorem sign_extend_twos_complement_witness :
    3 ≤ 9 ∧ 9 ≤ 11 ∧
    (sign_extend (get_bits_between 0x21FF (9 - 1) 0) 9
        = to_u16 (twos_complement_value 0x21FF 9) ∧
    sign_extend (get_bits_between 0x21FF (9 - 1) 0) 9 < 65536 ∧
    sign_extend (get_bits_between 0x21FF (9 - 1) 0) 9 % 2 ^ 9 = 0x21FF % 2 ^ 9 ∧
    ∀ i, 9 ≤ i → i ≤ 15 →
      (sign_extend (get_bits_between 0x21FF (9 - 1) 0) 9).testBit i
        = Nat.testBit 0x21FF (9 - 1)) :=
  ⟨by decide, by decide, sign_extend_twos_complement 0x21FF 9 (by decide) (by decide)⟩

/-- C15 (bit-range extraction): for every 16-bit word and 0 <= lo <= hi <= 15,
`get_bits_between w hi lo` is floor(w / 2^lo) mod 2^(hi-lo+1); for hi = lo it
is bit lo of w, a value 0 or 1; for hi = 15 and lo = 0 it is w itself. -/
theorem get_bits_between_extracts (w hi lo : Nat) (hw : w < 65536) (hlo : lo ≤ hi)
    (hhi : hi ≤ 15) :
    get_bits_between w hi lo = w / 2 ^ lo % 2 ^ (hi - lo + 1) ∧
    (hi = lo → get_bits_between w hi lo = (w.testBit lo).toNat ∧
      get_bits_between w hi lo ≤ 1) ∧
    (hi = 15 → lo = 0 → get_bits_between w hi lo = w) := by
  have hmain : get_bits_between w hi lo = w / 2 ^ lo % 2 ^ (hi - lo + 1) := by
    rw [get_bits_between_eq w hi lo hhi]
    have e : 2 ^ (hi + 1) = 2 ^ lo * 2 ^ (hi - lo + 1) := by
      rw [← Nat.pow_add]
      congr 1
      omega
    rw [e, Nat.mod_mul_right_div_self]
  refine ⟨hmain, ?_, ?_⟩
  · intro h
    subst h
    rw [hmain, Nat.sub_self, Nat.toNat_testBit]
    simp only [Nat.zero_add, Nat.pow_one]
    exact ⟨trivial, by omega⟩
  · intro h15 h0
    subst h15 h0
    rw [hmain]
    simp only [Nat.pow_zero, Nat.div_one]
    exact Nat.mod_eq_of_lt (by norm_num; exact hw)

/-- Witness for C15: bits [11:9] of the word 0x1234. -/
theorem get_bits_between_extracts_witness :
    0x1234 < 65536 ∧ 9 ≤ 11 ∧ 11 ≤ 15 ∧
    (get_bits_between 0x1234 11 9 = 0x1234 / 2 ^ 9 % 2 ^ (11 - 9 + 1) ∧
    (11 = 9 → get_bits_between 0x1234 11 9 = (Nat.testBit 0x1234 9).toNat ∧
      get_bits_between 0x1234 11 9 ≤ 1) ∧
    (11 = 15 → 9 = 0 → get_bits_between 0x1234 11 9 = 0x1234)) :=
  ⟨by decide, by decide, by decide,
    get_bits_between_extracts 0x1234 11 9 (by decide) (by decide) (by decide)⟩

/-- C11 (one flag): for every register array and every value,
`update_condition_code` leaves exactly one of PSR bits 2, 1, 0 set, so bits
[2:0] are one of 4, 2, 1; and for every state and every add, and, not, load,
load-indirect, load-register or load-effective-address word, every result of
`execute` has PSR bits [2:0] among 4, 2, 1 (a result exists whenever the
memory accesses are in range). -/
theorem condition_codes_one_hot (instruction : Nat) (arguments : Nat → Nat) (s : Machine)
    (hop : defines_register (get_bits_between instruction 15 12)) :
    (∀ (registers : Nat → Nat) (v : Nat),
      ((update_condition_code registers v R_PSR).testBit 2).toNat
        + ((update_condition_code registers v R_PSR).testBit 1).toNat
        + ((update_condition_code registers v R_PSR).testBit 0).toNat = 1 ∧
      (get_bits_between (update_condition_code registers v R_PSR) 2 0 = COND_NEG ∨
        get_bits_between (update_condition_code registers v R_PSR) 2 0 = COND_ZERO ∨
        get_bits_between (update_condition_code registers v R_PSR) 2 0 = COND_POS)) ∧
    (∀ o, execute instruction arguments s = some o →
      ((o.machine.registers R_PSR).testBit 2).toNat
        + ((o.machine.registers R_PSR).testBit 1).toNat
        + ((o.machine.registers R_PSR).testBit 0).toNat = 1 ∧
      (get_bits_between (o.machine.registers R_PSR) 2 0 = COND_NEG ∨
        get_bits_between (o.machine.registers R_PSR) 2 0 = COND_ZERO ∨
        get_bits_between (o.machine.registers R_PSR) 2 0 = COND_POS)) ∧
    (accesses_in_range instruction s → ∃ o, execute instruction arguments s = some o) := by
  have key : ∀ (p v : Nat),
      (((p &&& 0x8000) + (if v = 0 then COND_ZERO else COND_POS)).testBit 2).toNat
        + (((p &&& 0x8000) + (if v = 0 then COND_ZERO else COND_POS)).testBit 1).toNat
        + (((p &&& 0x8000) + (if v = 0 then COND_ZERO else COND_POS)).testBit 0).toNat = 1 ∧
      (get_bits_between ((p &&& 0x8000) + (if v = 0 then COND_ZERO else COND_POS)) 2 0
          = COND_NEG ∨
        get_bits_between ((p &&& 0x8000) + (if v = 0 then COND_ZERO else COND_POS)) 2 0
          = COND_ZERO ∨
        get_bits_between ((p &&& 0x8000) + (if v = 0 then COND_ZERO else COND_POS)) 2 0
          = COND_POS) := by
    intro p v
    rw [get_bits_between_eq _ 2 0 (by decide)]
    simp only [Nat.toNat_testBit, and_sign_bit, COND_NEG, COND_ZERO, COND_POS]
    norm_num
    split_ifs <;> omega
  refine ⟨?_, ?_, execute_defined instruction arguments s⟩
  · intro registers v
    rw [update_condition_code_psr]
    exact key _ _
  · intro o ho
    obtain ⟨v, hv⟩ := (execute_psr instruction arguments s o ho).1 hop
    rw [hv]
    exact key _ _

/-- Witness for C11: `ADD R0, R0, #1` (word 0x1021) in the state after
loading. -/
theorem condition_codes_one_hot_witness :
    defines_register (get_bits_between 0x1021 15 12) ∧
    (∃ o, execute 0x1021 zeroed at_origin = some o ∧
      get_bits_between (o.machine.registers R_PSR) 2 0 = COND_POS) ∧
    ∀ o, execute 0x1021 zeroed at_origin = some o →
      ((o.machine.registers R_PSR).testBit 2).toNat
        + ((o.machine.registers R_PSR).testBit 1).toNat
        + ((o.machine.registers R_PSR).testBit 0).toNat = 1 ∧
      (get_bits_between (o.machine.registers R_PSR) 2 0 = COND_NEG ∨
        get_bits_between (o.machine.registers R_PSR) 2 0 = COND_ZERO ∨
        get_bits_between (o.machine.registers R_PSR) 2 0 = COND_POS) :=
  ⟨by decide, ⟨_, rfl, rfl⟩,
    (condition_codes_one_hot 0x1021 zeroed at_origin (by decide)).2.1⟩

/-- C12 (privilege bit): for every state and every word whose memory accesses
are in range, `execute` returns and bit 15 of the PSR is the same before and
after. -/
theorem privilege_bit_preserved (instruction : Nat) (arguments : Nat → Nat) (s : Machine)
    (hr : accesses_in_range instruction s) :
    ∃ o, execute instruction arguments s = some o ∧
      get_bits_between (o.machine.registers R_PSR) 15 15
        = get_bits_between (s.registers R_PSR) 15 15 ∧
      (o.machine.registers R_PSR).testBit 15 = (s.registers R_PSR).testBit 15 := by
  obtain ⟨o, ho⟩ := execute_defined instruction arguments s hr
  refine ⟨o, ho, ?_⟩
  have hp := execute_psr instruction arguments s o ho
  by_cases hd : defines_register (get_bits_between instruction 15 12)
  · obtain ⟨v, hv⟩ := hp.1 hd
    rw [hv, get_bits_between_eq _ 15 15 (by decide), get_bits_between_eq _ 15 15 (by decide)]
    simp only [Nat.testBit_to_div_mod, and_sign_bit, COND_ZERO, COND_POS, decide_eq_decide]
    norm_num
    split_ifs <;> constructor <;> omega
  · rw [hp.2 hd]
    exact ⟨rfl, rfl⟩

/-- Witness for C12: `NOT R0, R0` (word 0x903F) in the state after loading. -/
theorem privilege_bit_preserved_witness :
    accesses_in_range 0x903F at_origin ∧
    ∃ o, execute 0x903F zeroed at_origin = some o ∧
      get_bits_between (o.machine.registers R_PSR) 15 15
        = get_bits_between (at_origin.registers R_PSR) 15 15 ∧
      (o.machine.registers R_PSR).testBit 15 = (at_origin.registers R_PSR).testBit 15 :=
  ⟨by decide, privilege_bit_preserved 0x903F zeroed at_origin (by decide)⟩

/-- C13, as stated, fails: with PSR = 0x0708 (bits 3, 8, 9 and 10 set),
`update_condition_code 1` leaves PSR = 1, so bits [15:3] change from 0xE1
to 0. -/
theorem update_condition_code_clears_middle_bits :
    get_bits_between (store zeroed R_PSR 0x0708 R_PSR) 15 3 = 0xE1 ∧
    update_condition_code (store zeroed R_PSR 0x0708) 1 R_PSR = 1 ∧
    get_bits_between (update_condition_code (store zeroed R_PSR 0x0708) 1 R_PSR) 15 3 = 0 ∧
    get_bits_between (update_condition_code (store zeroed R_PSR 0x0708) 1 R_PSR) 15 3
      ≠ get_bits_between (store zeroed R_PSR 0x0708 R_PSR) 15 3 :=
  ⟨rfl, rfl, rfl, by decide⟩

/-- C13, amended: for every register array and every value v,
`update_condition_code v` sets the PSR to (p AND 0x8000) + flag, where p is the
old PSR: bit 15 is kept, bits [14:3] are cleared, bits [2:0] hold the flag, and
no other register changes; bits [15:3] are the same before and after exactly
when bits [14:3] of p are zero. -/
theorem update_condition_code_keeps_bit_15_only (registers : Nat → Nat) (v : Nat) :
    update_condition_code registers v R_PSR
      = (registers R_PSR &&& 0x8000) + (if v = 0 then COND_ZERO else COND_POS) ∧
    get_bits_between (update_condition_code registers v R_PSR) 15 15
      = get_bits_between (registers R_PSR) 15 15 ∧
    get_bits_between (update_condition_code registers v R_PSR) 14 3 = 0 ∧
    get_bits_between (update_condition_code registers v R_PSR) 2 0
      = (if v = 0 then COND_ZERO else COND_POS) ∧
    (get_bits_between (update_condition_code registers v R_PSR) 15 3
        = get_bits_between (registers R_PSR) 15 3 ↔
      get_bits_between (registers R_PSR) 14 3 = 0) ∧
    ∀ i, i ≠ R_PSR → update_condition_code registers v i = registers i := by
  refine ⟨update_condition_code_psr registers v, ?_, ?_, update_condition_code_flags registers v,
    ?_, fun i hi => update_condition_code_other registers v i hi⟩
  · rw [update_condition_code_psr, get_bits_between_eq _ 15 15 (by decide),
      get_bits_between_eq _ 15 15 (by decide), and_sign_bit]
    simp only [COND_ZERO, COND_POS]
    norm_num
    split_ifs <;> omega
  · rw [update_condition_code_psr, get_bits_between_eq _ 14 3 (by decide), and_sign_bit]
    simp only [COND_ZERO, COND_POS]
    norm_num
    split_ifs <;> omega
  · rw [update_condition_code_psr, get_bits_between_eq _ 15 3 (by decide),
      get_bits_between_eq _ 15 3 (by decide), get_bits_between_eq _ 14 3 (by decide),
      and_sign_bit]
    simp only [COND_ZERO, COND_POS]
    norm_num
    split_ifs <;> constructor <;> omega

/-- C17 (PSR frame): for every state and every store, store-indirect,
store-register, branch, jump, jump-to-subroutine or trap word whose memory
accesses are in range, `execute` returns and the whole PSR is unchanged. -/
theorem psr_unchanged_by_stores_and_jumps (instruction : Nat) (arguments : Nat → Nat)
    (s : Machine)
    (hop : get_bits_between instruction 15 12 = INSTR_ST ∨
      get_bits_between instruction 15 12 = INSTR_STI ∨
      get_bits_between instruction 15 12 = INSTR_STR ∨
      get_bits_between instruction 15 12 = INSTR_BR ∨
      get_bits_between instruction 15 12 = INSTR_JMP ∨
      get_bits_between instruction 15 12 = INSTR_JSR ∨
      get_bits_between instruction 15 12 = INSTR_TRAP)
    (hr : accesses_in_range instruction s) :
    ∃ o, execute instruction arguments s = some o ∧
      o.machine.registers R_PSR = s.registers R_PSR := by
  obtain ⟨o, ho⟩ := execute_defined instruction arguments s hr
  refine ⟨o, ho, (execute_psr instruction arguments s o ho).2 ?_⟩
  rcases hop with h | h | h | h | h | h | h <;> rw [h] <;> decide

/-- Witness for C17: `ST R0, #1` (word 0x3001) in the state after loading. -/
theorem psr_unchanged_by_stores_and_jumps_witness :
    (get_bits_between 0x3001 15 12 = INSTR_ST ∨
      get_bits_between 0x3001 15 12 = INSTR_STI ∨
      get_bits_between 0x3001 15 12 = INSTR_STR ∨
      get_bits_between 0x3001 15 12 = INSTR_BR ∨
      get_bits_between 0x3001 15 12 = INSTR_JMP ∨
      get_bits_between 0x3001 15 12 = INSTR_JSR ∨
      get_bits_between 0x3001 15 12 = INSTR_TRAP) ∧
    accesses_in_range 0x3001 at_origin ∧
    ∃ o, execute 0x3001 zeroed at_origin = some o ∧
      o.machine.registers R_PSR = at_origin.registers R_PSR :=
  ⟨Or.inl rfl, by decide,
    psr_unchanged_by_stores_and_jumps 0x3001 zeroed at_origin (Or.inl rfl) (by decide)⟩

/-- C20 (memory frame): for every state and every word, if the opcode is not
store, store-indirect or store-register then every result of `execute` has the
memory it started with (and a result exists whenever the accesses are in
range); if it is one of the three and the accesses are in range, `execute`
returns and every memory word other than the one at the effective address is
unchanged. -/
theorem memory_frame (instruction : Nat) (arguments : Nat → Nat) (s : Machine) :
    (¬ is_store (get_bits_between instruction 15 12) →
      (∀ o, execute instruction arguments s = some o → o.machine.memory = s.memory) ∧
      (accesses_in_range instruction s →
        ∃ o, execute instruction arguments s = some o ∧ o.machine.memory = s.memory)) ∧
    (is_store (get_bits_between instruction 15 12) → accesses_in_range instruction s →
      ∃ o, execute instruction arguments s = some o ∧
        ∀ a, a ≠ effective_address instruction s → o.machine.memory a = s.memory a) := by
  constructor
  · intro hn
    have hall : ∀ o, execute instruction arguments s = some o → o.machine.memory = s.memory := by
      intro o ho
      rw [execute_memory instruction arguments s o ho, if_neg hn]
    refine ⟨hall, fun hr => ?_⟩
    obtain ⟨o, ho⟩ := execute_defined instruction arguments s hr
    exact ⟨o, ho, hall o ho⟩
  · intro hs hr
    obtain ⟨o, ho⟩ := execute_defined instruction arguments s hr
    refine ⟨o, ho, fun a ha => ?_⟩
    rw [execute_memory instruction arguments s o ho, if_pos hs, store_apply, if_neg ha]

/-- Witness for C20: `LD R0, #1` (word 0x2001) and `ST R0, #1` (word 0x3001)
in the state after loading. -/
theorem memory_frame_witness :
    ¬ is_store (get_bits_between 0x2001 15 12) ∧ accesses_in_range 0x2001 at_origin ∧
    (∃ o, execute 0x2001 zeroed at_origin = some o ∧ o.machine.memory = at_origin.memory) ∧
    is_store (get_bits_between 0x3001 15 12) ∧ accesses_in_range 0x3001 at_origin ∧
    effective_address 0x3001 at_origin = 0x3002 ∧
    ∃ o, execute 0x3001 zeroed at_origin = some o ∧
      ∀ a, a ≠ effective_address 0x3001 at_origin → o.machine.memory a = at_origin.memory a :=
  ⟨by decide, by decide,
    ((memory_frame 0x2001 zeroed at_origin).1 (by decide)).2 (by decide),
    by decide, by decide, rfl,
    (memory_frame 0x3001 zeroed at_origin).2 (by decide) (by decide)⟩

/-- C16 (jump-to-subroutine): evaluation at `JSRR R7` (word 0x41C0) with
PC = 0x3000 and R7 = 0x5000.  R7 is overwritten with the return address 0x3001
before the base register is read, so the PC becomes 0x3001 and not the value
0x5000 that R7 held before the instruction.  In general, for every state and
every word with opcode 0100, R7 receives (PC + 1) mod 2^16, the offset mode
sets the PC to (PC + 1 + sign_extend(bits [10:0], 11)) mod 2^16, and the
register mode sets it to the old value of the base register for R0..R6 and to
(PC + 1) mod 2^16 for R7. -/
theorem jsrr_r7_reads_overwritten_register :
    subroutine_state.wf ∧
    get_bits_between 0x41C0 15 12 = INSTR_JSR ∧ get_bits_between 0x41C0 11 11 = 0 ∧
    get_bits_between 0x41C0 8 6 = R_7 ∧
    subroutine_state.registers R_7 = 0x5000 ∧ subroutine_state.registers R_PC = 0x3000 ∧
    (∃ o, execute 0x41C0 zeroed subroutine_state = some o ∧
      o.machine.registers R_7 = 0x3001 ∧ o.machine.registers R_PC = 0x3001 ∧
      o.machine.registers R_PC ≠ subroutine_state.registers R_7) ∧
    (∀ (instruction : Nat) (arguments : Nat → Nat) (s : Machine),
      get_bits_between instruction 15 12 = INSTR_JSR →
      ∃ o, execute instruction arguments s = some o ∧
        o.machine.registers R_7 = (s.registers R_PC + 1) % 65536 ∧
        o.machine.registers R_PC =
          (if get_bits_between instruction 11 11 ≠ 0 then
            (s.registers R_PC + 1 + sign_extend (get_bits_between instruction 10 0) 11)
              % 65536
          else if get_bits_between instruction 8 6 = R_7 then
            (s.registers R_PC + 1) % 65536
          else s.registers (get_bits_between instruction 8 6))) :=
  ⟨subroutine_state_wf, rfl, rfl, rfl, rfl, rfl, ⟨_, rfl, rfl, rfl, by decide⟩, jsr_result⟩

/-- C18 (stale operands): for every state, every word and any two initial
contents of the `arguments` array, `execute` either has no result for both or
leaves the same registers, the same memory, the same return value and the
same output; every slot the second `switch` reads for the opcode is decoded
to the same value from both arrays. -/
theorem arguments_contents_irrelevant (instruction : Nat) (a1 a2 : Nat → Nat) (s : Machine) :
    (execute instruction a1 s).map observable = (execute instruction a2 s).map observable ∧
    ((∃ o1, execute instruction a1 s = some o1) ↔ (∃ o2, execute instruction a2 s = some o2)) ∧
    (∀ o1 o2, execute instruction a1 s = some o1 → execute instruction a2 s = some o2 →
      o1.machine.registers = o2.machine.registers ∧ o1.machine.memory = o2.machine.memory ∧
      o1.ret = o2.ret ∧ o1.output = o2.output) ∧
    (reads_slot0 (get_bits_between instruction 15 12) →
      decode_operands instruction (get_bits_between instruction 15 12)
          (store s.registers R_PC ((s.registers R_PC + 1) % 65536)) a1 0
        = decode_operands instruction (get_bits_between instruction 15 12)
          (store s.registers R_PC ((s.registers R_PC + 1) % 65536)) a2 0) ∧
    (reads_slot1 (get_bits_between instruction 15 12) →
      decode_operands instruction (get_bits_between instruction 15 12)
          (store s.registers R_PC ((s.registers R_PC + 1) % 65536)) a1 1
        = decode_operands instruction (get_bits_between instruction 15 12)
          (store s.registers R_PC ((s.registers R_PC + 1) % 65536)) a2 1) ∧
    (reads_slot2 (get_bits_between instruction 15 12) →
      decode_operands instruction (get_bits_between instruction 15 12)
          (store s.registers R_PC ((s.registers R_PC + 1) % 65536)) a1 2
        = decode_operands instruction (get_bits_between instruction 15 12)
          (store s.registers R_PC ((s.registers R_PC + 1) % 65536)) a2 2) := by
  have hc := execute_congr instruction a1 a2 s
  have hd := decode_congr instruction (get_bits_between instruction 15 12)
    (store s.registers R_PC ((s.registers R_PC + 1) % 65536)) a1 a2 (opcode_lt instruction)
  refine ⟨hc, ?_, ?_, hd.1, hd.2.1, hd.2.2⟩
  · constructor
    · rintro ⟨o1, h1⟩
      rw [h1] at hc
      cases h2 : execute instruction a2 s with
      | none =>
        rw [h2] at hc
        exact Option.noConfusion hc
      | some o2 => exact ⟨o2, rfl⟩
    · rintro ⟨o2, h2⟩
      rw [h2] at hc
      cases h1 : execute instruction a1 s with
      | none =>
        rw [h1] at hc
        exact Option.noConfusion hc
      | some o1 => exact ⟨o1, rfl⟩
  · intro o1 o2 h1 h2
    rw [h1, h2] at hc
    have e : observable o1 = observable o2 := Option.some.inj hc
    unfold observable at e
    have em : o1.machine = o2.machine := congrArg Prod.fst e
    have er : o1.ret = o2.ret := congrArg (fun p => p.2.1) e
    have eo : o1.output = o2.output := congrArg (fun p => p.2.2) e
    exact ⟨by rw [em], by rw [em], er, eo⟩

/-- C19 (store-register then load-register): for every state with 16-bit
cells, a store-register word and a load-register word with the same base
register field and the same offset field o, 0 <= o <= 31, with
R[base] + o <= 65535: executing the store and then the load leaves in the
destination of the load the value the source of the store held before. -/
theorem store_then_load_register (store_word load_word : Nat) (a1 a2 : Nat → Nat)
    (s : Machine) (hwf : s.wf)
    (h1 : get_bits_between store_word 15 12 = INSTR_STR)
    (h2 : get_bits_between load_word 15 12 = INSTR_LDR)
    (hb : get_bits_between load_word 8 6 = get_bits_between store_word 8 6)
    (hoff : get_bits_between load_word 5 0 = get_bits_between store_word 5 0)
    (ho : get_bits_between store_word 5 0 ≤ 31)
    (hr : s.registers (get_bits_between store_word 8 6) + get_bits_between store_word 5 0
      ≤ 65535) :
    ∃ o1 o2, execute store_word a1 s = some o1 ∧ execute load_word a2 o1.machine = some o2 ∧
      o2.machine.registers (get_bits_between load_word 11 9)
        = s.registers (get_bits_between store_word 11 9) := by
  have hb6 : get_bits_between store_word 8 6 ≠ R_PC :=
    Nat.ne_of_lt (get_bits_between_three_lt store_word 6)
  have hse : sign_extend (get_bits_between store_word 5 0) 6 = get_bits_between store_word 5 0 := by
    rw [sign_extend_eq _ 6 (by decide) (by decide) (by norm_num; omega), if_pos (by norm_num; omega)]
  have hidx : s.registers (get_bits_between store_word 8 6)
      + sign_extend (get_bits_between store_word 5 0) 6 < MAX_ADDRESSABLE := by
    rw [hse]
    show _ < 65536
    omega
  obtain ⟨o1, e1, hm, hregs⟩ := store_register_result store_word a1 s h1 hidx
  have hbase : o1.machine.registers (get_bits_between load_word 8 6)
      = s.registers (get_bits_between store_word 8 6) := by
    rw [hb, hregs _ hb6]
  have hidx2 : o1.machine.registers (get_bits_between load_word 8 6)
      + sign_extend (get_bits_between load_word 5 0) 6 < MAX_ADDRESSABLE := by
    rw [hbase, hoff]
    exact hidx
  obtain ⟨o2, e2, hv⟩ := load_register_result load_word a2 o1.machine h2 hidx2
  refine ⟨o1, o2, e1, e2, ?_⟩
  rw [hv, hbase, hoff, hm, store_apply, if_pos rfl]
  exact switch_endianness_involutive _ (hwf.1 _)

/-- Witness for C19: `STR R2, R0, #3` (word 0x7403) then `LDR R4, R0, #3`
(word 0x6803) in the state with R0 = 0, R2 = 0xFFFF. -/
theorem store_then_load_register_witness :
    add_operands_state.wf ∧
    get_bits_between 0x7403 15 12 = INSTR_STR ∧ get_bits_between 0x6803 15 12 = INSTR_LDR ∧
    get_bits_between 0x6803 8 6 = get_bits_between 0x7403 8 6 ∧
    get_bits_between 0x6803 5 0 = get_bits_between 0x7403 5 0 ∧
    get_bits_between 0x7403 5 0 ≤ 31 ∧
    add_operands_state.registers (get_bits_between 0x7403 8 6) + get_bits_between 0x7403 5 0
      ≤ 65535 ∧
    ∃ o1 o2, execute 0x7403 zeroed add_operands_state = some o1 ∧
      execute 0x6803 zeroed o1.machine = some o2 ∧
      o2.machine.registers (get_bits_between 0x6803 11 9)
        = add_operands_state.registers (get_bits_between 0x7403 11 9) :=
  ⟨add_operands_state_wf, rfl, rfl, rfl, rfl, by decide, by decide,
    store_then_load_register 0x7403 0x6803 zeroed zeroed add_operands_state
      add_operands_state_wf rfl rfl rfl rfl (by decide) (by decide)⟩

end LC3
